import Mathlib

/-!
Verification of the sentsei output-repair pipeline.

This file gives a shallow embedding of the deterministic post-processing
("repair") pipeline of the sentsei repository and settles the spec claims
about it.  Strings are modelled as `List Char` (`Str`); every Python string
operation used by the code under verification is re-defined below with
Python's semantics (documented at each definition).  External collaborators
of the pipeline (the MeCab tokenizer, pykakasi, pypinyin, the Korean
romanizer, jieba, the CEDICT lookup, and the two auxiliary LLM calls made
by `backend.py`) are modelled as abstract function parameters gathered in a
`Collab` structure, exactly as the design document treats them: pure
functions supplied from outside.

Floating-point note: the source compares small-integer ratios against the
literals `0.3`, `0.1`, `0.5` and `1.2` using IEEE doubles.  For every count
and length that can arise from strings of realistic size (far below 2^50),
those comparisons coincide with the exact rational comparisons
`10*c > 3*d`, `10*c < d`, `2*c > d` and `5*s <= 6*n` used here; the
boundary cases round to the same side because the quotient of two such
integers rounds to the same double as the corresponding literal.
-/

set_option autoImplicit false
set_option maxRecDepth 8192

/-- Strings are lists of unicode scalar values, as in Python. -/
abbrev Str := List Char

/-- Coercion helper from Lean string literals to `Str`. -/
def lit (s : String) : Str := s.data

/-- Python `str.isspace`-relevant whitespace set as used by `str.strip()`,
`str.split()` and the regex class `\s`, restricted to the ASCII whitespace
characters that can occur in the data handled by the pipeline. -/
def isPySpace (c : Char) : Bool :=
  c = ' ' || c = '\t' || c = '\n' || c = '\r' || c = Char.ofNat 11 || c = Char.ofNat 12

/-- Left strip by a predicate (Python `str.lstrip`). -/
def lstripP (p : Char → Bool) (s : Str) : Str := s.dropWhile p

/-- Right strip by a predicate (Python `str.rstrip`). -/
def rstripP (p : Char → Bool) (s : Str) : Str := (s.reverse.dropWhile p).reverse

/-- Python `str.strip()` (no argument): trim whitespace from both ends. -/
def pyStripWs (s : Str) : Str := rstripP isPySpace (lstripP isPySpace s)

/-- Python `str.strip(chars)`: trim any of the given characters from both ends. -/
def pyStripChars (cs : List Char) (s : Str) : Str :=
  rstripP (fun c => cs.contains c) (lstripP (fun c => cs.contains c) s)

/-- Python `str.rstrip(chars)`. -/
def pyRstripChars (cs : List Char) (s : Str) : Str :=
  rstripP (fun c => cs.contains c) s

/-- Python `str.replace(old, "")` for a single character `old`: delete every
occurrence. -/
def removeChar (x : Char) (s : Str) : Str := s.filter (fun c => c ≠ x)

/-- Sequential single-character deletions `s.replace(c1,"").replace(c2,"")...`
collapse to one filter over the character set. -/
def removeChars (cs : List Char) (s : Str) : Str := s.filter (fun c => ¬ cs.contains c)

/-- Python substring test `pat in hay` (note `"" in s` is `True`). -/
def strContains (hay pat : Str) : Bool :=
  pat.isPrefixOf hay ||
    (match hay with
     | [] => false
     | _ :: t => strContains t pat)

/-- Helper for `splitWs`: accumulate the current word (reversed) while
scanning. -/
def splitWsAux (cur : Str) : Str → List Str
  | [] => if cur = [] then [] else [cur.reverse]
  | c :: t =>
    if isPySpace c then
      if cur = [] then splitWsAux [] t else cur.reverse :: splitWsAux [] t
    else splitWsAux (c :: cur) t

/-- Python `str.split()` with no argument: split on whitespace runs and drop
empty fields. -/
def splitWs (s : Str) : List Str := splitWsAux [] s

/-- Split at the first occurrence of a character: `some (before, after)`, or
`none` when the character does not occur. -/
def splitFirst (c : Char) : Str → Option (Str × Str)
  | [] => none
  | a :: t =>
    if a = c then some ([], t)
    else
      match splitFirst c t with
      | some (x, y) => some (a :: x, y)
      | none => none

/-- Join a list of strings with a separator (Python `sep.join(parts)`). -/
def joinStr (sep : Str) : List Str → Str
  | [] => []
  | [x] => x
  | x :: y :: t => x ++ sep ++ joinStr sep (y :: t)

/-- Python `str.replace(old, new)` for a non-empty `old`: scan left to right
replacing non-overlapping occurrences.  (The pipeline never calls `replace`
with an empty pattern.) -/
def replaceAll (needle repl : Str) : Str → Str
  | [] => []
  | c :: t =>
    if needle ≠ [] ∧ needle.isPrefixOf (c :: t) then
      repl ++ replaceAll needle repl (List.drop needle.length (c :: t))
    else c :: replaceAll needle repl t
termination_by s => s.length
decreasing_by
  · simp only [List.length_drop, List.length_cons]
    rename_i h
    have hne : needle ≠ [] := h.1
    have : 0 < needle.length := List.length_pos.mpr hne
    omega
  · simp [Nat.lt_succ_self]

/-- ASCII letter test (regex class `[a-zA-Z]`). -/
def isAsciiAlpha (c : Char) : Bool :=
  ('a' ≤ c && c ≤ 'z') || ('A' ≤ c && c ≤ 'Z')

/-- Helper for `latinRuns`: `cur` is the current run, reversed. -/
def latinRunsAux (cur : Str) : Str → List Str
  | [] => if cur.length ≥ 2 then [cur.reverse] else []
  | c :: t =>
    if isAsciiAlpha c then latinRunsAux (c :: cur) t
    else (if cur.length ≥ 2 then [cur.reverse] else []) ++ latinRunsAux [] t

/-- Python `re.findall(r'[a-zA-Z]{2,}', s)`: the maximal ASCII-letter runs of
length at least two, in order. -/
def latinRuns (s : Str) : List Str := latinRunsAux [] s

/-- Test for any run of three or more consecutive ASCII letters
(`re.search(r'[a-zA-Z]{3,}', s)` used by the backend's rewrite filter). -/
def hasLatinRun3 : Str → Bool
  | a :: b :: c :: t =>
    (isAsciiAlpha a && isAsciiAlpha b && isAsciiAlpha c) || hasLatinRun3 (b :: c :: t)
  | _ => false

/-- CJK unified-ideograph test `'一' <= c <= '鿿'` used throughout the
source for "Chinese character". -/
def isCJK (c : Char) : Bool := 0x4e00 ≤ c.toNat && c.toNat ≤ 0x9fff

/-- Count of CJK unified ideographs in a string. -/
def countCJK (s : Str) : Nat := (s.filter isCJK).length

/-- Character class of the salvage regex
`[一-鿿぀-ゟ゠-ヿ가-힯]` (CJK ideographs,
hiragana, katakana, hangul). -/
def isCJKextended (c : Char) : Bool :=
  (0x4e00 ≤ c.toNat && c.toNat ≤ 0x9fff) ||
  (0x3040 ≤ c.toNat && c.toNat ≤ 0x309f) ||
  (0x30a0 ≤ c.toNat && c.toNat ≤ 0x30ff) ||
  (0xac00 ≤ c.toNat && c.toNat ≤ 0xd7af)

/-- Python `re.sub(r'\s+', ' ', s)`: collapse each whitespace run to a single
space.  The flag records whether the previous character was whitespace. -/
def collapseWsAux (inRun : Bool) : Str → Str
  | [] => []
  | c :: t =>
    if isPySpace c then
      if inRun then collapseWsAux true t else ' ' :: collapseWsAux true t
    else c :: collapseWsAux false t

/-- Collapse whitespace runs to single spaces. -/
def collapseWs (s : Str) : Str := collapseWsAux false s

/-- Python regex `re.sub(xy, z, s)` for a two-character pattern `xy` and a
one-character replacement, scanning left to right over non-overlapping
occurrences (used by the Japanese long-vowel pass). -/
def subPair (x y r : Char) : Str → Str
  | [] => []
  | [c] => [c]
  | c :: d :: t =>
    if c = x ∧ d = y then r :: subPair x y r t
    else c :: subPair x y r (d :: t)

/-- Association-list lookup keyed by strings (models Python `dict` lookup for
the rule tables; the tables below never map one key to two values, so
first-match lookup agrees with Python's dict semantics). -/
def lookupStr (tbl : List (Str × Str)) (k : Str) : Option Str :=
  match tbl with
  | [] => none
  | (a, v) :: t => if a = k then some v else lookupStr t k

/-- Association-list lookup keyed by single characters. -/
def lookupChar (tbl : List (Char × Str)) (k : Char) : Option Str :=
  match tbl with
  | [] => none
  | (a, v) :: t => if a = k then some v else lookupChar t k

/-- Association-list lookup keyed by character pairs (two-character digraph
and dagesh tables). -/
def lookupPair (tbl : List ((Char × Char) × Str)) (k : Char × Char) : Option Str :=
  match tbl with
  | [] => none
  | (a, v) :: t => if a = k then some v else lookupPair t k

/-- Python truthiness filter on an optional string: `x or KEEP` patterns in the
source treat both `None` and `""` as absent. -/
def truthyStr (o : Option Str) : Option Str :=
  match o with
  | some s => if s = [] then none else some s
  | none => none

/-! ### Rule tables (from `src/llm.py`)

Immutable, process-wide static data.  Each table is transcribed verbatim
from the module-level dictionaries of `llm.py`. -/

/-- Greek single-character transliteration table (`_GREEK_TRANSLIT`). -/
def GREEK_TRANSLIT : List (Char × Str) := [
  ('Α', lit "A"),
  ('Β', lit "V"),
  ('Γ', lit "G"),
  ('Δ', lit "D"),
  ('Ε', lit "E"),
  ('Ζ', lit "Z"),
  ('Η', lit "I"),
  ('Θ', lit "Th"),
  ('Ι', lit "I"),
  ('Κ', lit "K"),
  ('Λ', lit "L"),
  ('Μ', lit "M"),
  ('Ν', lit "N"),
  ('Ξ', lit "X"),
  ('Ο', lit "O"),
  ('Π', lit "P"),
  ('Ρ', lit "R"),
  ('Σ', lit "S"),
  ('Τ', lit "T"),
  ('Υ', lit "Y"),
  ('Φ', lit "F"),
  ('Χ', lit "Ch"),
  ('Ψ', lit "Ps"),
  ('Ω', lit "O"),
  ('α', lit "a"),
  ('β', lit "v"),
  ('γ', lit "g"),
  ('δ', lit "d"),
  ('ε', lit "e"),
  ('ζ', lit "z"),
  ('η', lit "i"),
  ('θ', lit "th"),
  ('ι', lit "i"),
  ('κ', lit "k"),
  ('λ', lit "l"),
  ('μ', lit "m"),
  ('ν', lit "n"),
  ('ξ', lit "x"),
  ('ο', lit "o"),
  ('π', lit "p"),
  ('ρ', lit "r"),
  ('σ', lit "s"),
  ('ς', lit "s"),
  ('τ', lit "t"),
  ('υ', lit "y"),
  ('φ', lit "f"),
  ('χ', lit "ch"),
  ('ψ', lit "ps"),
  ('ω', lit "o"),
  ('ά', lit "á"),
  ('έ', lit "é"),
  ('ή', lit "í"),
  ('ί', lit "í"),
  ('ό', lit "ó"),
  ('ύ', lit "ý"),
  ('ώ', lit "ó"),
  ('ϊ', lit "i"),
  ('ϋ', lit "y"),
  ('ΐ', lit "í"),
  ('ΰ', lit "ý"),
  ('Ά', lit "Á"),
  ('Έ', lit "É"),
  ('Ή', lit "Í"),
  ('Ί', lit "Í"),
  ('Ό', lit "Ó"),
  ('Ύ', lit "Ý"),
  ('Ώ', lit "Ó")
]

/-- Greek digraph table (`_GREEK_DIGRAPHS`), keyed by character pairs. -/
def GREEK_DIGRAPHS : List ((Char × Char) × Str) := [
  (('ο', 'υ'), lit "ou"),
  (('Ο', 'υ'), lit "Ou"),
  (('Ο', 'Υ'), lit "OU"),
  (('α', 'ι'), lit "e"),
  (('Α', 'ι'), lit "E"),
  (('Α', 'Ι'), lit "E"),
  (('ε', 'ι'), lit "i"),
  (('Ε', 'ι'), lit "I"),
  (('Ε', 'Ι'), lit "I"),
  (('ο', 'ι'), lit "i"),
  (('Ο', 'ι'), lit "I"),
  (('Ο', 'Ι'), lit "I"),
  (('α', 'υ'), lit "av"),
  (('Α', 'υ'), lit "Av"),
  (('Α', 'Υ'), lit "AV"),
  (('ε', 'υ'), lit "ev"),
  (('Ε', 'υ'), lit "Ev"),
  (('Ε', 'Υ'), lit "EV"),
  (('μ', 'π'), lit "b"),
  (('Μ', 'π'), lit "B"),
  (('Μ', 'Π'), lit "B"),
  (('ν', 'τ'), lit "nt"),
  (('Ν', 'τ'), lit "Nt"),
  (('Ν', 'Τ'), lit "NT"),
  (('γ', 'κ'), lit "gk"),
  (('Γ', 'κ'), lit "Gk"),
  (('Γ', 'Κ'), lit "GK"),
  (('γ', 'γ'), lit "ng"),
  (('Γ', 'Γ'), lit "NG")
]

/-- Hebrew consonant table (`_HEBREW_CONSLIT`). -/
def HEBREW_CONSLIT : List (Char × Str) := [
  ('א', lit ""),
  ('ב', lit "v"),
  ('ג', lit "g"),
  ('ד', lit "d"),
  ('ה', lit "h"),
  ('ז', lit "z"),
  ('ח', lit "ch"),
  ('ט', lit "t"),
  ('כ', lit "kh"),
  ('ך', lit "kh"),
  ('ל', lit "l"),
  ('מ', lit "m"),
  ('ם', lit "m"),
  ('נ', lit "n"),
  ('ן', lit "n"),
  ('ס', lit "s"),
  ('ע', lit "\x27"),
  ('פ', lit "f"),
  ('ף', lit "f"),
  ('צ', lit "ts"),
  ('ץ', lit "ts"),
  ('ק', lit "k"),
  ('ר', lit "r"),
  ('ש', lit "sh"),
  ('ת', lit "t")
]

/-- Hebrew consonant-plus-mark pairs (`_HEBREW_DAGESH`): dagesh and
shin/sin-dot combinations, two source characters each. -/
def HEBREW_DAGESH : List ((Char × Char) × Str) := [
  (('ב', Char.ofNat 0x5bc), lit "b"),
  (('ג', Char.ofNat 0x5bc), lit "g"),
  (('ד', Char.ofNat 0x5bc), lit "d"),
  (('כ', Char.ofNat 0x5bc), lit "k"),
  (('פ', Char.ofNat 0x5bc), lit "p"),
  (('ת', Char.ofNat 0x5bc), lit "t"),
  (('ש', Char.ofNat 0x5c1), lit "sh"),
  (('ש', Char.ofNat 0x5c2), lit "s")
]

/-- Hebrew niqqud vowel points (`_HEBREW_VOWELS`). -/
def HEBREW_VOWELS : List (Char × Str) := [
  (Char.ofNat 0x05B0, lit "e"),  -- shva
  (Char.ofNat 0x05B1, lit "e"),  -- hataf segol
  (Char.ofNat 0x05B2, lit "a"),  -- hataf patach
  (Char.ofNat 0x05B3, lit "o"),  -- hataf qamats
  (Char.ofNat 0x05B4, lit "i"),  -- hiriq
  (Char.ofNat 0x05B5, lit "e"),  -- tsere
  (Char.ofNat 0x05B6, lit "e"),  -- segol
  (Char.ofNat 0x05B7, lit "a"),  -- patach
  (Char.ofNat 0x05B8, lit "a"),  -- qamats
  (Char.ofNat 0x05B9, lit "o"),  -- holam
  (Char.ofNat 0x05BA, lit "o"),  -- holam haser
  (Char.ofNat 0x05BB, lit "u")  -- qubuts
]

/-- Curated Hebrew word dictionary (`_HEBREW_DICT`).  The source's dict
literal repeats three keys with identical values; Python keeps the last
occurrence, this association list finds the first — the values agree, so
the lookup function is the same. -/
def HEBREW_DICT : List (Str × Str) := [
  (lit "שלום", lit "shalom"),
  (lit "אני", lit "ani"),
  (lit "אתה", lit "ata"),
  (lit "את", lit "at"),
  (lit "הוא", lit "hu"),
  (lit "היא", lit "hi"),
  (lit "אנחנו", lit "anachnu"),
  (lit "הם", lit "hem"),
  (lit "הן", lit "hen"),
  (lit "כן", lit "ken"),
  (lit "לא", lit "lo"),
  (lit "מה", lit "ma"),
  (lit "מי", lit "mi"),
  (lit "איפה", lit "eifo"),
  (lit "למה", lit "lama"),
  (lit "איך", lit "eikh"),
  (lit "מתי", lit "matai"),
  (lit "תודה", lit "toda"),
  (lit "בבקשה", lit "bevakasha"),
  (lit "סליחה", lit "slikha"),
  (lit "בוקר", lit "boker"),
  (lit "ערב", lit "erev"),
  (lit "לילה", lit "laila"),
  (lit "יום", lit "yom"),
  (lit "טוב", lit "tov"),
  (lit "טובה", lit "tova"),
  (lit "רע", lit "ra"),
  (lit "גדול", lit "gadol"),
  (lit "קטן", lit "katan"),
  (lit "יפה", lit "yafe"),
  (lit "חדש", lit "chadash"),
  (lit "ישן", lit "yashan"),
  (lit "אוכל", lit "okhel"),
  (lit "מים", lit "mayim"),
  (lit "לחם", lit "lekhem"),
  (lit "בית", lit "bayit"),
  (lit "ספר", lit "sefer"),
  (lit "ילד", lit "yeled"),
  (lit "ילדה", lit "yalda"),
  (lit "איש", lit "ish"),
  (lit "אישה", lit "isha"),
  (lit "אבא", lit "aba"),
  (lit "אמא", lit "ima"),
  (lit "חבר", lit "khaver"),
  (lit "ברוך", lit "barukh"),
  (lit "הבא", lit "haba"),
  (lit "שם", lit "sham"),
  (lit "פה", lit "po"),
  (lit "עכשיו", lit "akhshav"),
  (lit "היום", lit "hayom"),
  (lit "מחר", lit "makhar"),
  (lit "אתמול", lit "etmol"),
  (lit "שנה", lit "shana"),
  (lit "חודש", lit "khodesh"),
  (lit "שבוע", lit "shavua"),
  (lit "אחד", lit "ekhad"),
  (lit "שניים", lit "shnayim"),
  (lit "שלוש", lit "shalosh"),
  (lit "ארבע", lit "arba"),
  (lit "חמש", lit "khamesh"),
  (lit "שש", lit "shesh"),
  (lit "שבע", lit "sheva"),
  (lit "שמונה", lit "shmone"),
  (lit "תשע", lit "tesha"),
  (lit "עשר", lit "eser"),
  (lit "אהבה", lit "ahava"),
  (lit "חיים", lit "khayim"),
  (lit "עולם", lit "olam"),
  (lit "ישראל", lit "yisrael"),
  (lit "ירושלים", lit "yerushalayim"),
  (lit "שמח", lit "same\x27akh"),
  (lit "רוצה", lit "rotse"),
  (lit "יודע", lit "yode\x27a"),
  (lit "הולך", lit "holekh"),
  (lit "בא", lit "ba"),
  (lit "רואה", lit "ro\x27e"),
  (lit "שומע", lit "shome\x27a"),
  (lit "אוהב", lit "ohev"),
  (lit "אוהבת", lit "ohevet"),
  (lit "לומד", lit "lomed"),
  (lit "עובד", lit "oved"),
  (lit "גר", lit "gar"),
  (lit "נסיעה", lit "nesi\x27a"),
  (lit "טיול", lit "tiyul"),
  (lit "כסף", lit "kesef"),
  (lit "זמן", lit "zman"),
  (lit "מקום", lit "makom"),
  (lit "דרך", lit "derekh"),
  (lit "שלומך", lit "shlomkha"),
  (lit "אותך", lit "otkha"),
  (lit "אותי", lit "oti"),
  (lit "אותו", lit "oto"),
  (lit "שלי", lit "sheli"),
  (lit "שלך", lit "shelkha"),
  (lit "של", lit "shel"),
  (lit "זה", lit "ze"),
  (lit "זאת", lit "zot"),
  (lit "אלה", lit "ele"),
  (lit "הזה", lit "haze"),
  (lit "עם", lit "im"),
  (lit "על", lit "al"),
  (lit "אל", lit "el"),
  (lit "מן", lit "min"),
  (lit "בין", lit "bein"),
  (lit "גם", lit "gam"),
  (lit "רק", lit "rak"),
  (lit "עוד", lit "od"),
  (lit "כבר", lit "kvar"),
  (lit "אז", lit "az"),
  (lit "יש", lit "yesh"),
  (lit "אין", lit "ein"),
  (lit "צריך", lit "tsarikh"),
  (lit "יכול", lit "yakhol"),
  (lit "רוצה", lit "rotse"),
  (lit "אוהב", lit "ohev"),
  (lit "אוהבת", lit "ohevet"),
  (lit "לעשות", lit "la\x27asot"),
  (lit "ללכת", lit "lalekhet"),
  (lit "לאכול", lit "le\x27ekhol"),
  (lit "לדבר", lit "ledaber"),
  (lit "לראות", lit "lir\x27ot"),
  (lit "לשמוע", lit "lishmoa"),
  (lit "אחת", lit "akhat"),
  (lit "שתיים", lit "shtayim"),
  (lit "מאה", lit "me\x27a"),
  (lit "אלף", lit "elef"),
  (lit "חם", lit "kham"),
  (lit "קר", lit "kar"),
  (lit "מהר", lit "maher"),
  (lit "לאט", lit "le\x27at"),
  (lit "כל", lit "kol"),
  (lit "הרבה", lit "harbe"),
  (lit "מעט", lit "me\x27at"),
  (lit "קצת", lit "ktsat"),
  (lit "אחרי", lit "akharei"),
  (lit "לפני", lit "lifnei"),
  (lit "ליד", lit "leyad"),
  (lit "למעלה", lit "lemala"),
  (lit "למטה", lit "lemata")
]

/-! ### Transliterators (from `src/llm.py`) -/

/-- Hebrew letter test `_is_hebrew`: `'א' <= ch <= 'ת'`. -/
def isHebrewLetter (c : Char) : Bool := 0x05D0 ≤ c.toNat && c.toNat ≤ 0x05EA

/-- Partial model of `unicodedata.category(ch) == 'Mn'` (nonspacing combining
marks), covering the Hebrew block's combining marks and the general combining
diacritics block — the only `Mn` characters that occur in the Hebrew text this
function is applied to.  The dagesh and shin/sin dots consumed earlier in the
loop also fall in this set, exactly as in the source. -/
def isMn (c : Char) : Bool :=
  (0x0591 ≤ c.toNat && c.toNat ≤ 0x05BD) || c.toNat = 0x05BF ||
  c.toNat = 0x05C1 || c.toNat = 0x05C2 || c.toNat = 0x05C4 ||
  c.toNat = 0x05C5 || c.toNat = 0x05C7 ||
  (0x0300 ≤ c.toNat && c.toNat ≤ 0x036F)

/-- Strip set `'.,!?;:\'"'` of the Hebrew dictionary lookup. -/
def HEB_PUNCT_QUOTES : List Char :=
  ['.', ',', '!', '?', ';', ':', Char.ofNat 39, Char.ofNat 34]

/-- The `prev_is_cons` test of the vav/yod heuristics: the previous
original character is a Hebrew letter other than vav or yod. -/
def hebPrevIsCons (prev : Option Char) : Bool :=
  match prev with
  | some pc => isHebrewLetter pc && pc ≠ 'ו' && pc ≠ 'י'
  | none => false

/-- The `next_is_cons` test: the lookahead character is a Hebrew letter. -/
def hebNextIsCons (next : Option Char) : Bool :=
  match next with
  | some nc => isHebrewLetter nc
  | none => false

/-- Vav disambiguation: word-initial before a consonant → "ve", between
consonants or before a non-Hebrew/end position after a consonant → "o",
otherwise → "v". -/
def hebVav (atStart prevIsCons nextIsCons : Bool) : Str :=
  if atStart ∧ nextIsCons = true then lit "ve"
  else if prevIsCons && nextIsCons then lit "o"
  else if prevIsCons && ! nextIsCons then lit "o"
  else lit "v"

/-- Yod disambiguation, transcribed verbatim: the source's condition
`prev_is_cons and (next_is_cons or next_not_heb)` (whose second conjunct is
a tautology). -/
def hebYod (prevIsCons nextIsCons : Bool) : Str :=
  if prevIsCons && (nextIsCons || ! nextIsCons) then lit "i" else lit "y"

/-- One character of the Hebrew fallback state machine, given the previous
character of the original string (`none` at position 0) and the lookahead
(`none` at the end).  Mirrors the single-character branches of the `while`
loop in `_hebrew_romanize`: niqqud vowel, combining-mark skip, vav and yod
disambiguation, consonant table, pass-through. -/
def hebSingle (prev : Option Char) (c : Char) (next : Option Char) : Str :=
  match lookupChar HEBREW_VOWELS c with
  | some v => v
  | none =>
    if isMn c then []
    else if c = 'ו' then hebVav prev.isNone (hebPrevIsCons prev) (hebNextIsCons next)
    else if c = 'י' then hebYod (hebPrevIsCons prev) (hebNextIsCons next)
    else
      match lookupChar HEBREW_CONSLIT c with
      | some v => v
      | none => [c]

/-- The character-level fallback loop of `_hebrew_romanize`, threading the
previous original character.  Two-character consumption: dagesh/shin-dot
pairs, and doubled vav. -/
def hebFallbackAux : Option Char → Str → Str
  | _, [] => []
  | prev, [c] => hebSingle prev c none
  | prev, c :: d :: rest =>
    match lookupPair HEBREW_DAGESH (c, d) with
    | some v => v ++ hebFallbackAux (some d) rest
    | none =>
      if c = 'ו' ∧ d = 'ו' then 'v' :: hebFallbackAux (some d) rest
      else hebSingle prev c (some d) ++ hebFallbackAux (some c) (d :: rest)

/-- Character-level Hebrew fallback transliteration. -/
def hebFallback (s : Str) : Str := hebFallbackAux none s

/-- Single-word path of `_hebrew_romanize`: dictionary lookup on the
punctuation/quote-stripped word, falling back to the character state
machine on the raw word. -/
def hebrewRomanizeWord (w : Str) : Str :=
  match lookupStr HEBREW_DICT (pyStripChars HEB_PUNCT_QUOTES w) with
  | some v => v
  | none => hebFallback w

/-- The `_hebrew_romanize` function.  The multi-word branch looks each word
up in the dictionary and otherwise recurses on the word; a word produced by
`split()` contains no whitespace, so the recursive call takes the single-word
path — `hebrewRomanizeWord` is exactly that path (including the dictionary
check, which returns the same value in the dictionary case). -/
def hebrewRomanize (text : Str) : Str :=
  let words := splitWs text
  if words.length > 1 then joinStr (lit " ") (words.map hebrewRomanizeWord)
  else hebrewRomanizeWord text

/-- Single-character Greek mapping `_GREEK_TRANSLIT.get(ch, ch)`. -/
def greekChar (a : Char) : Str :=
  match lookupChar GREEK_TRANSLIT a with
  | some v => v
  | none => [a]

/-- The `_greek_romanize` scanner: at each position try the two-character
digraph table first (consuming both characters), otherwise map the single
character through `GREEK_TRANSLIT`, passing unmapped characters through. -/
def greekRomanize : Str → Str
  | [] => []
  | [a] => greekChar a
  | a :: b :: rest =>
    match lookupPair GREEK_DIGRAPHS (a, b) with
    | some v => v ++ greekRomanize rest
    | none => greekChar a ++ greekRomanize (b :: rest)

/-! ### Japanese analyzer and the two dispatchers -/

/-- One MeCab token: surface form, part-of-speech field (`features[0]`) and
the katakana pronunciation field (`features[9]`, `none` when missing or
`"*"`). -/
structure MTok where
  surface : Str
  pos : Str
  reading : Option Str

/-- External pure collaborators of the pipeline, per the design document:
MeCab tokenization, pykakasi conversion (the list of per-item `hepburn`
fields), pypinyin, the Korean romanizer, jieba segmentation, the CEDICT
lookup (`cedict_lookup`), and the two auxiliary LLM calls of `backend.py`
(the TAIDE rewrite and the explanation-translation fix), each returning
`none` on failure. -/
structure Collab where
  mecab : Str → List MTok
  kakasiItems : Str → List Str
  zhPinyin : Str → Str
  koRoman : Str → Str
  jieba : Str → List Str
  cedict : Str → Option Str
  taide : Str → Option Str
  explFix : Str → Option Str

/-- The `_katakana_to_romaji` helper: `"".join(item["hepburn"] for item in
_kakasi.convert(kata))`. -/
def katakanaToRomaji (c : Collab) (kata : Str) : Str := (c.kakasiItems kata).flatten

/-- Japanese punctuation set `_JA_PUNCT`. -/
def JA_PUNCT : List Char := ("、。！？「」『』（）…—·〜～，" : String).data

/-- Reading override table `_JA_READING_OVERRIDES`. -/
def JA_READING_OVERRIDES : List (Str × Str) :=
  [(lit "私", lit "watashi"), (lit "俺", lit "ore"), (lit "僕", lit "boku")]

/-- The long-vowel pass `_clean_long_vowels`: the six `re.sub` calls in
source order (aa, ii, uu, ee, ou, oo). -/
def cleanLongVowels (romaji : Str) : Str :=
  subPair 'o' 'o' 'ō'
    (subPair 'o' 'u' 'ō'
      (subPair 'e' 'e' 'ē'
        (subPair 'u' 'u' 'ū'
          (subPair 'i' 'i' 'ī'
            (subPair 'a' 'a' 'ā' romaji)))))

/-- Token loop of `_japanese_pronunciation`: skip empty surfaces and
punctuation-only tokens, apply the reading-override table, then the particle
corrections (は→wa, を→o, へ→e when the part of speech contains 助詞), and
otherwise convert the katakana reading (or the surface form) to romaji,
keeping it when its stripped form is non-empty. -/
def jaTokenParts (c : Collab) : List MTok → List Str
  | [] => []
  | tk :: rest =>
    if tk.surface = [] then jaTokenParts c rest
    else if tk.surface.all (fun ch => JA_PUNCT.contains ch) then jaTokenParts c rest
    else
      match lookupStr JA_READING_OVERRIDES tk.surface with
      | some v => v :: jaTokenParts c rest
      | none =>
        if strContains tk.pos (lit "助詞") ∧ tk.surface = lit "は" then
          lit "wa" :: jaTokenParts c rest
        else if strContains tk.pos (lit "助詞") ∧ tk.surface = lit "を" then
          lit "o" :: jaTokenParts c rest
        else if strContains tk.pos (lit "助詞") ∧ tk.surface = lit "へ" then
          lit "e" :: jaTokenParts c rest
        else
          let romaji := match tk.reading with
            | some k => katakanaToRomaji c k
            | none => katakanaToRomaji c tk.surface
          if pyStripWs romaji ≠ [] then romaji :: jaTokenParts c rest
          else jaTokenParts c rest

/-- The `_japanese_pronunciation` analyzer: MeCab tokenization, the token
loop, single-space joining, and the long-vowel macron pass. -/
def japanesePronunciation (c : Collab) (text : Str) : Str :=
  cleanLongVowels (joinStr (lit " ") (jaTokenParts c (c.mecab text)))

/-- The `llm.py` Script Dispatcher `deterministic_pronunciation`: eight
supported language codes, `none` otherwise. -/
def deterministicPronunciation (c : Collab) (text : Str) (lang : Str) : Option Str :=
  if lang = lit "ja" then some (japanesePronunciation c text)
  else if lang = lit "zh" then some (c.zhPinyin text)
  else if lang = lit "ko" then some (c.koRoman text)
  else if lang = lit "el" then some (greekRomanize text)
  else if lang = lit "he" then some (hebrewRomanize text)
  else if lang = lit "it" ∨ lang = lit "es" ∨ lang = lit "en" then some text
  else none

/-- The `backend.py` dispatcher `deterministic_pronunciation`: only `ja`
(plain pykakasi with space joining and blank filtering), `zh` and `ko`;
`none` for every other code. -/
def backendPronunciation (c : Collab) (text : Str) (lang : Str) : Option Str :=
  if lang = lit "ja" then
    some (joinStr (lit " ")
      ((c.kakasiItems text).filter (fun h => pyStripWs h ≠ [])))
  else if lang = lit "zh" then some (c.zhPinyin text)
  else if lang = lit "ko" then some (c.koRoman text)
  else none

/-! ### TranslationPayload data model (§3 of the design)

Python dict fields are modelled as total fields with the `get(default)`
semantics the source uses everywhere.  Fields outside the repair passes
(`literal`, `cultural_note`, `formality`, the Taiwanese-phrase dataset
extras, the difficulty score and the final OpenCC conversion — all handled
outside the §4.6 pipeline or by external assets) are not part of the
model. -/

/-- A breakdown entry (`WordEntry` of the design). -/
structure WordEntry where
  word : Str
  pronunciation : Str
  meaning : Str
  difficulty : Str
  note : Option Str
deriving DecidableEq

/-- The mutable payload record repaired in place by `learn_sentence`;
`warning` models the advisory `_warning` key. -/
structure Payload where
  translation : Str
  pronunciation : Str
  breakdown : List WordEntry
  grammar_notes : List Str
  native_expression : Option Str
  warning : Option Str
deriving DecidableEq

/-! ### Repair passes shared verbatim by `routes.py` and `backend.py`

Each pass reads and writes only its documented fields (§4.6); every pass
below is therefore written as a single structure update whose field values
are computed by a pure function of the fields the source reads.  The
conditional structure inside each function mirrors the source lines
cited. -/

/-- Echo-warning message text. -/
def ECHO_MSG : Str := lit "Translation may be echoing input. Model struggled with this input."

/-- Wrong-language warning message text. -/
def WRONGLANG_MSG : Str := lit "Translation may be in the wrong language."

/-- Warning computed by pass 1 (routes.py 255-265, backend.py 587-599);
`2*cjk > len` models the float comparison `cjk/len > 0.5`, and the
`max(len,1)` guard is subsumed by the non-emptiness test. -/
def echoWarning (sentence : Str) (inputZh : Bool) (lang : Str) (translation : Str)
    (w : Option Str) : Option Str :=
  if lang ≠ lit "zh" ∧ lang ≠ lit "en" ∧ inputZh ∧
      removeChar ' ' (pyStripWs translation) ≠ [] ∧ removeChar ' ' (pyStripWs sentence) ≠ [] then
    if 2 * countCJK (removeChar ' ' (pyStripWs translation)) >
        (removeChar ' ' (pyStripWs translation)).length ∧ lang = lit "ja" then
      if removeChar ' ' (pyStripWs translation) = removeChar ' ' (pyStripWs sentence) ∨
          strContains (removeChar ' ' (pyStripWs translation))
            (removeChar ' ' (pyStripWs sentence)) then some ECHO_MSG
      else w
    else if 2 * countCJK (removeChar ' ' (pyStripWs translation)) >
        (removeChar ' ' (pyStripWs translation)).length ∧ lang ≠ lit "ja" ∧ lang ≠ lit "zh" then
      some WRONGLANG_MSG
    else w
  else w

/-- Pass 1, echo/wrong-language detection: writes only `_warning`. -/
def echoPass (sentence : Str) (inputZh : Bool) (lang : Str) (p : Payload) : Payload :=
  { p with warning := echoWarning sentence inputZh lang p.translation p.warning }

/-- English-to-Chinese term table `en_to_zh` (identical literal in both
files). -/
def EN_TO_ZH : List (Str × Str) := [
  (lit "menu", lit "菜單"), (lit "bill", lit "帳單"), (lit "coffee", lit "咖啡"),
  (lit "beer", lit "啤酒"), (lit "ok", lit "好"), (lit "sorry", lit "抱歉"),
  (lit "thanks", lit "謝謝"), (lit "thank", lit "謝"), (lit "taxi", lit "計程車"),
  (lit "bus", lit "公車"), (lit "hotel", lit "旅館"), (lit "wifi", lit "無線網路"),
  (lit "email", lit "電子郵件"), (lit "phone", lit "手機"), (lit "app", lit "應用程式"),
  (lit "restaurant", lit "餐廳"), (lit "bar", lit "酒吧"), (lit "shop", lit "商店")]

/-- Substitute each found Latin run that has a table entry (the source's
fold over `english_words`; the final `if fixed != translation_text`
assignment-guard has no semantic effect and is dropped). -/
def leakFix (t : Str) : Str :=
  (latinRuns t).foldl
    (fun acc w =>
      match lookupStr EN_TO_ZH (w.map Char.toLower) with
      | some r => replaceAll w r acc
      | none => acc) t

/-- Pass 2, script-leakage repair (Chinese target only): writes only the
translation. -/
def leakPass (lang : Str) (p : Payload) : Payload :=
  { p with translation :=
      if lang = lit "zh" ∧ p.translation ≠ [] then leakFix p.translation else p.translation }

/-- Per-item pronunciation override: replace only when the dispatcher value
is truthy (`if word_pron:`). -/
def itemPron (d : Str → Option Str) (it : WordEntry) : WordEntry :=
  { it with pronunciation :=
      match truthyStr (d it.word) with
      | some s => s
      | none => it.pronunciation }

/-- Pass 3, pronunciation override, parameterized by the dispatcher
(`llm.py`'s in routes.py, `backend.py`'s own in backend.py): top-level field
then every breakdown entry, each replaced only on a truthy value
(`if det_pron:` / `if word_pron:`). -/
def pronPass (d : Str → Option Str) (p : Payload) : Payload :=
  { p with
      pronunciation :=
        match truthyStr (d p.translation) with
        | some s => s
        | none => p.pronunciation,
      breakdown := p.breakdown.map (itemPron d) }

/-- Total character count of the breakdown's words. -/
def sumWordLens (bd : List WordEntry) : Nat := (bd.map (fun it => it.word.length)).sum

/-- Re-segmentation trigger `avg_word_len <= 1.2 and len(breakdown) > 3`;
`5*sum <= 6*count` is the exact form of the float comparison
`sum/count <= 1.2` (with `max(count,1)` subsumed by `count > 3`). -/
def resegCond (bd : List WordEntry) : Bool :=
  decide (5 * sumWordLens bd ≤ 6 * bd.length) && decide (bd.length > 3)

/-- Sentence punctuation stripped from the translation before jieba
segmentation. -/
def ZH_STRIP_PUNCT : List Char := ['，', '。', '！', '？']

/-- The stripped, non-empty jieba segments of the punctuation-cleaned
translation (`[w.strip() for w in jieba.cut(...) if w.strip()]`). -/
def jiebaWords (c : Collab) (translation : Str) : List Str :=
  ((c.jieba (removeChars ZH_STRIP_PUNCT translation)).map pyStripWs).filter
    (fun w => w ≠ ([] : Str))

/-- CEDICT meaning with the per-character `" + "` fallback and the
bare-segment fallback (identical logic in both files). -/
def cedictMeaning (c : Collab) (w : Str) : Str :=
  match truthyStr (c.cedict w) with
  | some m => m
  | none =>
    let chars := w.map (fun ch => (truthyStr (c.cedict [ch])).getD [])
    let combined := joinStr (lit " + ") (chars.filter (fun s => s ≠ ([] : Str)))
    if combined ≠ [] then combined else w

/-- One rebuilt breakdown entry of the routes.py re-segmentation: jieba
word, `llm.py`-dispatcher pronunciation (`or ""`), CEDICT meaning. -/
def resegEntry (c : Collab) (lang : Str) (w : Str) : WordEntry :=
  { word := w,
    pronunciation := (deterministicPronunciation c w lang).getD [],
    meaning := cedictMeaning c w,
    difficulty := lit "medium",
    note := none }

/-- Breakdown after pass 4 of routes.py, Chinese re-segmentation
(299-316). -/
def routesResegBreakdown (c : Collab) (lang : Str) (p : Payload) : List WordEntry :=
  if lang = lit "zh" ∧ p.breakdown ≠ [] ∧ p.translation ≠ [] ∧ resegCond p.breakdown then
    (jiebaWords c p.translation).map (resegEntry c lang)
  else p.breakdown

/-- Pass 4 of routes.py: writes only the breakdown. -/
def routesResegPass (c : Collab) (lang : Str) (p : Payload) : Payload :=
  { p with breakdown := routesResegBreakdown c lang p }

/-- Characters deleted from the translation before the containment check
(space and the four sentence punctuation marks in both widths). -/
def CLEAN_TRANS_PUNCT : List Char := [' ', '，', ',', '。', '.', '！', '!', '？', '?']

/-- Keep condition of the routes.py hallucinated-word filter: the
space-stripped word is a Python substring of the cleaned translation (an
empty word is a substring of everything). -/
def routesKeep (translation : Str) (it : WordEntry) : Bool :=
  strContains (removeChars CLEAN_TRANS_PUNCT translation) (removeChar ' ' it.word)

/-- Pass 5 of routes.py, hallucinated-word filter (318-321): writes only
the breakdown, and only when both the breakdown and the translation are
non-empty. -/
def routesFilterPass (p : Payload) : Payload :=
  { p with breakdown :=
      if p.breakdown ≠ [] ∧ p.translation ≠ [] then
        p.breakdown.filter (routesKeep p.translation)
      else p.breakdown }

/-- Japanese first-person gender/register markers, in source (insertion)
order: marker, reading, description. -/
def GENDER_MARKERS : List (Str × Str × Str) := [
  (lit "私", lit "watashi", lit "neutral/formal, used by all genders"),
  (lit "僕", lit "boku", lit "masculine, casual — used by boys/men"),
  (lit "俺", lit "ore", lit "masculine, very casual/rough — used by men"),
  (lit "あたし", lit "atashi", lit "feminine, casual — used by women/girls"),
  (lit "わたくし", lit "watakushi", lit "very formal, gender-neutral")]

/-- Formatted marker note `f"⚠️ '{marker}' ({reading}): {desc}"`. -/
def genderNoteFor (m : Str × Str × Str) : Str :=
  lit "⚠️ \x27" ++ m.1 ++ lit "\x27 (" ++ m.2.1 ++ lit "): " ++ m.2.2

/-- Grammar notes after pass 6: when the target is Japanese, the
translation is non-empty and some marker occurs in it, the synthesized
note is prepended (`existing_notes.insert(0, ...)`). -/
def genderNotes (lang : Str) (translation : Str) (notes : List Str) : List Str :=
  if lang = lit "ja" ∧ translation ≠ [] then
    let detected := (GENDER_MARKERS.filter (fun m => strContains translation m.1)).map genderNoteFor
    if detected ≠ [] then
      (lit "Gender/formality note: " ++ joinStr (lit " | ") detected) :: notes
    else notes
  else notes

/-- Pass 6, Japanese gender/register annotation: writes only the grammar
notes. -/
def genderPass (lang : Str) (p : Payload) : Payload :=
  { p with grammar_notes := genderNotes lang p.translation p.grammar_notes }

/-! ### Native-expression sanitization -/

/-- Trailing-punctuation set of the routes.py equality normalization. -/
def NAT_NORM_PUNCT : List Char := ['。', '！', '？']

/-- Normalization used by routes.py's duplicate check:
`.replace("。","").replace("！","").replace("？","").strip()`. -/
def natNorm (s : Str) : Str := pyStripWs (removeChars NAT_NORM_PUNCT s)

/-- Parse of `native_expression` in routes.py (345-352): sentence portion
and explanation portion of `native.split("|", 2)` (`parts[0]` and, when at
least two pipes occur, `parts[2]`), or the whole stripped string with empty
explanation when no pipe occurs. -/
def nativeParts (s0 : Str) : Str × Str :=
  if s0.contains '|' then
    match splitFirst '|' s0 with
    | some (a, rest) =>
      (match splitFirst '|' rest with
       | some (_, c2) => (pyStripWs a, pyStripWs c2)
       | none => (pyStripWs a, []))
    | none => (pyStripWs s0, [])
  else (pyStripWs s0, [])

/-- Blanking guard for the explanation portion (routes.py 358-364): blank a
mostly-CJK explanation on English-source inputs (`10*cjk > 3*len` models
`> 0.3`), or a mostly-Latin long explanation on Chinese-source inputs
(`10*cjk < len` models `< 0.1`); otherwise keep it.  The field is non-empty
whenever the ratios are computed, subsuming `max(len,1)`. -/
def natBlank (inputZh : Bool) (ne : Str) : Str :=
  if ne ≠ [] then
    if ¬ inputZh ∧ 10 * countCJK ne > 3 * ne.length then []
    else if inputZh ∧ 10 * countCJK ne < ne.length ∧ ne.length > 10 then []
    else ne
  else ne

/-- Native-expression value after pass 7 of routes.py (342-365): null the
field when the sentence portion equals the translation after normalization,
otherwise recompute the pronunciation (`or ""`), possibly blank a
wrong-language explanation, and reassemble with `rstrip(" |")`. -/
def natFix (c : Collab) (inputZh : Bool) (lang : Str) (translation : Str) :
    Option Str → Option Str
  | none => none
  | some s0 =>
    if s0 = [] then some s0
    else
      if natNorm (nativeParts s0).1 = natNorm translation then none
      else if (nativeParts s0).1 ≠ [] then
        some (pyRstripChars [' ', '|']
          ((nativeParts s0).1 ++ lit " | " ++
            (deterministicPronunciation c (nativeParts s0).1 lang).getD [] ++ lit " | " ++
            natBlank inputZh (nativeParts s0).2))
      else some s0

/-- Pass 7 of routes.py: writes only `native_expression`. -/
def routesNativeFix (c : Collab) (inputZh : Bool) (lang : Str) (p : Payload) : Payload :=
  { p with native_expression := natFix c inputZh lang p.translation p.native_expression }

/-! ### Explanation-language enforcement (identical in both files) -/

/-- The `_mostly_cjk` helper: false on the empty string, else the float test
`cjk / max(len(s minus spaces), 1) > 0.3`, i.e. `10*cjk > 3*max(d,1)`. -/
def mostlyCjk (s : Str) : Bool :=
  if s = [] then false
  else decide (10 * countCJK s > 3 * max (removeChar ' ' s).length 1)

/-- Strip set of the salvage cleanup `.strip(' ()-:,.')`. -/
def SALVAGE_STRIP : List Char := [' ', '(', ')', '-', ':', ',', '.']

/-- Salvage of a mostly-CJK grammar note: delete the CJK/kana/hangul
ranges, strip, collapse whitespace runs, strip the residual punctuation. -/
def salvage (note : Str) : Str :=
  pyStripChars SALVAGE_STRIP
    (collapseWs (pyStripWs (note.filter (fun ch => ¬ isCJKextended ch))))

/-- Note filter loop: keep non-CJK notes verbatim, keep salvaged notes only
when longer than 15 characters. -/
def cleanNotes (notes : List Str) : List Str :=
  notes.foldr
    (fun note acc =>
      if mostlyCjk note then
        (if (salvage note).length > 15 then salvage note :: acc else acc)
      else note :: acc) []

/-- Synthesized fallback note used when every note was dropped. -/
def FALLBACK_NOTE : Str :=
  lit "Note: The original grammar notes were in the target language. Review the breakdown for word-by-word details."

/-- Grammar notes after pass 8: the cleaned notes, or the fallback when
everything was dropped, some note existed and the translation is
non-empty. -/
def explNotes (translation : Str) (notes : List Str) : List Str :=
  if cleanNotes notes = [] ∧ notes ≠ [] ∧ translation ≠ [] then [FALLBACK_NOTE]
  else cleanNotes notes

/-- The anchored leading substitution `^\(?\s*`: delete one opening paren,
then left strip. -/
def mcleanParen : Str → Str
  | [] => []
  | a :: t => if a = '(' then lstripP isPySpace t else lstripP isPySpace (a :: t)

/-- The anchored trailing substitution `\s*\)?\s*$`: right strip, delete one
closing paren, right strip again. -/
def mcleanClose (c3 : Str) : Str :=
  if c3.getLast? = some ')' then rstripP isPySpace c3.dropLast else c3

/-- Meaning cleanup `re.sub(r'[一-鿿]+','',m)` followed by `strip()` and
the two anchored paren-trimming substitutions `^\(?\s*` and
`\s*\)?\s*$`. -/
def mcleanMeaning (m : Str) : Str :=
  mcleanClose (rstripP isPySpace (mcleanParen (pyStripWs (m.filter (fun ch => ¬ isCJK ch)))))

/-- Per-entry meaning cleanup: rewrite only when the meaning contains a CJK
character and the cleaned form is non-empty. -/
def cleanMeaningEntry (it : WordEntry) : WordEntry :=
  if it.meaning.any isCJK ∧ mcleanMeaning it.meaning ≠ [] then
    { it with meaning := mcleanMeaning it.meaning }
  else it

/-- Pass 8, explanation-language enforcement (English-source inputs only):
filter/salvage grammar notes with the generic-note fallback, and strip CJK
from breakdown meanings.  Writes only those two fields, and nothing when
the input was Chinese. -/
def explLangPass (inputZh : Bool) (p : Payload) : Payload :=
  { p with
      grammar_notes := if inputZh then p.grammar_notes else explNotes p.translation p.grammar_notes,
      breakdown := if inputZh then p.breakdown else p.breakdown.map cleanMeaningEntry }

/-- The routes.py repair pipeline `learn_sentence` (post-processing section,
lines 255-421), §4.6 passes 1-8 in source order.  The Taiwanese-phrase
dataset step (367-388, an external-asset annotation that touches none of the
repaired fields) and the difficulty/OpenCC/caching epilogue sit outside the
§4.6 pipeline and are not modelled. -/
def routesRepair (c : Collab) (sentence : Str) (inputZh : Bool) (lang : Str) (p : Payload) : Payload :=
  explLangPass inputZh
    (routesNativeFix c inputZh lang
      (genderPass lang
        (routesFilterPass
          (routesResegPass c lang
            (pronPass (fun t => deterministicPronunciation c t lang)
              (leakPass lang
                (echoPass sentence inputZh lang p)))))))

/-! ### Passes specific to `backend.py` -/

/-- The quote characters stripped from the TAIDE rewrite
(`.strip('"\'')`). -/
def QUOTE_CHARS : List Char := [Char.ofNat 34, Char.ofNat 39]

/-- Translation after the backend's TAIDE taiwanification step (backend.py
623-648), Chinese target only.  The network call is the `taide`
collaborator (`none` models a failed request or non-OK response, after
which the pass keeps the current translation); the validity checks on the
returned text are embedded from the source: non-empty after strip, shorter
than three times the current translation, not starting with a brace, and
free of three-letter Latin runs. -/
def taideTranslation (c : Collab) (lang : Str) (translation : Str) : Str :=
  if lang = lit "zh" ∧ translation ≠ [] then
    match c.taide translation with
    | none => translation
    | some content =>
      let t := pyStripWs content
      if t ≠ [] ∧ t.length < translation.length * 3 ∧ t.headD ' ' ≠ Char.ofNat 123 ∧
          ¬ hasLatinRun3 t then
        let t2 := pyStripWs (pyStripChars QUOTE_CHARS t)
        if t2 ≠ [] then t2 else translation
      else translation
  else translation

/-- The backend's TAIDE step: writes only the translation. -/
def taidePass (c : Collab) (lang : Str) (p : Payload) : Payload :=
  { p with translation := taideTranslation c lang p.translation }

/-- One rebuilt entry of the backend re-segmentation before the meaning
loop (meaning initially empty, backend dispatcher). -/
def backendResegEntry (c : Collab) (lang : Str) (w : Str) : WordEntry :=
  { word := w, pronunciation := (backendPronunciation c w lang).getD [],
    meaning := [], difficulty := lit "medium", note := none }

/-- Breakdown after pass 4 of backend.py (663-693): identical trigger and
jieba word list; entries are first built with an empty meaning and the
CEDICT lookup loop then fills each meaning. -/
def backendResegBreakdown (c : Collab) (lang : Str) (p : Payload) : List WordEntry :=
  if lang = lit "zh" ∧ p.breakdown ≠ [] ∧ p.translation ≠ [] ∧ resegCond p.breakdown then
    ((jiebaWords c p.translation).map (backendResegEntry c lang)).map
      (fun it => { it with meaning := cedictMeaning c it.word })
  else p.breakdown

/-- Pass 4 of backend.py: writes only the breakdown. -/
def backendResegPass (c : Collab) (lang : Str) (p : Payload) : Payload :=
  { p with breakdown := backendResegBreakdown c lang p }

/-- Keep condition of the backend filter (695-708): unlike routes.py it
strips each word and drops entries whose stripped word is empty before the
containment check. -/
def backendKeep (translation : Str) (it : WordEntry) : Bool :=
  pyStripWs it.word ≠ ([] : Str) ∧
    strContains (removeChars CLEAN_TRANS_PUNCT translation) (removeChar ' ' (pyStripWs it.word))

/-- Pass 5 of backend.py, hallucinated-word filter: writes only the
breakdown. -/
def backendFilterPass (p : Payload) : Payload :=
  { p with breakdown :=
      if p.breakdown ≠ [] ∧ p.translation ≠ [] then
        p.breakdown.filter (backendKeep p.translation)
      else p.breakdown }

/-- Trailing punctuation of the backend duplicate check
(`.rstrip("。.!！")`). -/
def BACKEND_TRAIL : List Char := ['。', '.', '!', '！']

/-- Native-expression value after pass 7 of backend.py (729-764).  A
pipe-delimited value with at least two pipes gets its explanation possibly
rewritten through the `explFix` collaborator (English-source inputs with a
mostly-CJK explanation; failures or over-long answers keep the original)
and its pronunciation recomputed — the field is reassembled only when the
backend dispatcher yields a truthy pronunciation, and is never nulled on
this branch.  Only a pipe-free value is compared against the translation
(cores split at `(` and right-stripped) and nulled when the cores match. -/
def backendNatFix (c : Collab) (inputZh : Bool) (lang : Str) (translation : Str) :
    Option Str → Option Str
  | none => none
  | some s0 =>
    if s0 = [] then some s0
    else if s0.contains '|' then
      match splitFirst '|' s0 with
      | some (a, rest) =>
        (match splitFirst '|' rest with
         | some (_, c2) =>
           let ns := pyStripWs a
           let ne0 := pyStripWs c2
           let ne :=
             if ¬ inputZh ∧ ne0 ≠ [] ∧ 10 * countCJK ne0 > 3 * ne0.length then
               match c.explFix ne0 with
               | some fx =>
                 let f := pyStripWs fx
                 if f ≠ [] ∧ f.length < 200 then f else ne0
               | none => ne0
             else ne0
           match truthyStr (backendPronunciation c ns lang) with
           | some np => some (ns ++ lit " | " ++ np ++ lit " | " ++ ne)
           | none => some s0
         | none => some s0)
      | none => some s0
    else if translation ≠ [] then
      let base := match splitFirst '(' s0 with
        | some (a, _) => a
        | none => s0
      let ncore := pyRstripChars BACKEND_TRAIL (pyStripWs base)
      let tcore := pyRstripChars BACKEND_TRAIL (pyStripWs translation)
      if ncore = tcore then none else some s0
    else some s0

/-- Pass 7 of backend.py: writes only `native_expression`. -/
def backendNativeFix (c : Collab) (inputZh : Bool) (lang : Str) (p : Payload) : Payload :=
  { p with native_expression := backendNatFix c inputZh lang p.translation p.native_expression }

/-- The backend.py repair pipeline `learn_sentence` (post-processing
section, lines 587-841) in source order; as for routes.py, the
Taiwanese-phrase annotation and the OpenCC/caching epilogue are outside the
modelled §4.6 pipeline. -/
def backendRepair (c : Collab) (sentence : Str) (inputZh : Bool) (lang : Str) (p : Payload) : Payload :=
  explLangPass inputZh
    (backendNativeFix c inputZh lang
      (genderPass lang
        (backendFilterPass
          (backendResegPass c lang
            (pronPass (fun t => backendPronunciation c t lang)
              (taidePass c lang
                (leakPass lang
                  (echoPass sentence inputZh lang p))))))))

/-- Collaborator instance whose external functions all return nothing,
used to evaluate the pipeline at concrete inputs. -/
def trivialCollab : Collab :=
  { mecab := fun _ => [], kakasiItems := fun _ => [], zhPinyin := fun _ => [],
    koRoman := fun _ => [], jieba := fun _ => [], cedict := fun _ => none,
    taide := fun _ => none, explFix := fun _ => none }

/-! ### Helper lemmas -/

/-- Splitting a whitespace-free string yields it whole. -/
theorem splitWsAux_no_ws (s : Str) (h : ∀ ch ∈ s, isPySpace ch = false) :
    ∀ cur : Str, splitWsAux cur s = if cur = [] ∧ s = [] then [] else [cur.reverse ++ s] := by
  induction s with
  | nil =>
    intro cur
    by_cases hcur : cur = [] <;> simp [splitWsAux, hcur]
  | cons c t ih =>
    intro cur
    have hc : isPySpace c = false := h c (by simp)
    have ht : ∀ ch ∈ t, isPySpace ch = false := fun ch hm => h ch (by simp [hm])
    simp only [splitWsAux, hc, Bool.false_eq_true, if_false]
    rw [ih ht (c :: cur)]
    simp

/-- Python `split()` of a non-empty whitespace-free string. -/
theorem splitWs_single (w : Str) (hw : ∀ ch ∈ w, isPySpace ch = false) (hne : w ≠ []) :
    splitWs w = [w] := by
  unfold splitWs
  rw [splitWsAux_no_ws w hw []]
  simp [hne]

/-! ### C1 -/

/-- C1: for every payload whose `native_expression` has a sentence portion
that is punctuation-normalized-equal to the translation, the
native-expression sanitization pass of routes.py sets the field to
`None`. -/
theorem c1_native_expression_nulled (c : Collab) (inputZh : Bool) (lang : Str) (p : Payload)
    (s0 : Str) (h0 : p.native_expression = some s0) (hne : s0 ≠ [])
    (heq : natNorm (nativeParts s0).1 = natNorm p.translation) :
    (routesNativeFix c inputZh lang p).native_expression = none := by
  show natFix c inputZh lang p.translation p.native_expression = none
  rw [h0]
  unfold natFix
  simp [hne, heq]

/-- Witness for C1 at the spec's concrete example. -/
theorem c1_witness :
    (routesNativeFix trivialCollab true (lit "ja")
        { translation := lit "今日はいい天気ですね", pronunciation := [], breakdown := [],
          grammar_notes := [],
          native_expression := some (lit "今日はいい天気ですね | kyou wa ii tenki desu ne | explanation"),
          warning := none }).native_expression = none :=
  c1_native_expression_nulled _ _ _ _ _ rfl (by decide) (by decide)

/-! ### C4 -/

/-- A length-one-word entry for the boundary tests. -/
def oneCharEntry : WordEntry :=
  { word := lit "天", pronunciation := [], meaning := [], difficulty := lit "medium", note := none }

/-- A length-two-word entry for the exact-1.2-average test. -/
def twoCharEntry : WordEntry :=
  { word := lit "今天", pronunciation := [], meaning := [], difficulty := lit "medium", note := none }

/-- C4 (amended): for a Chinese-target payload with non-empty breakdown and
translation the re-segmentation pass replaces the breakdown exactly when
`5*sum <= 6*count` (the float test `avg <= 1.2`) and `count > 3` hold; 4
entries of length 1 trigger, 3 entries of length 1 do not, and — contrary
to the original claim — a breakdown of 5 entries totalling 6 characters
(average exactly 1.2) also triggers, because the threshold is
inclusive. -/
theorem c4_reseg_trigger :
    (∀ (c : Collab) (lang : Str) (p : Payload), lang = lit "zh" →
        p.breakdown ≠ [] → p.translation ≠ [] →
        routesResegBreakdown c lang p =
          (if 5 * sumWordLens p.breakdown ≤ 6 * p.breakdown.length ∧ p.breakdown.length > 3 then
            (jiebaWords c p.translation).map (resegEntry c lang)
          else p.breakdown)) ∧
    resegCond (List.replicate 4 oneCharEntry) = true ∧
    resegCond (List.replicate 3 oneCharEntry) = false ∧
    resegCond (twoCharEntry :: List.replicate 4 oneCharEntry) = true := by
  refine ⟨?_, by decide, by decide, by decide⟩
  intro c lang p h1 h2 h3
  unfold routesResegBreakdown resegCond
  by_cases hle : 5 * sumWordLens p.breakdown ≤ 6 * p.breakdown.length <;>
    by_cases hgt : p.breakdown.length > 3 <;>
      simp [h1, h2, h3, hle, hgt]

/-- Witness for C4's amended theorem: with non-trivial collaborators, at the
boundary the pass rebuilds the breakdown from the jieba segmentation. -/
theorem c4_witness :
    routesResegBreakdown
        { trivialCollab with jieba := fun _ => [lit "今天"] } (lit "zh")
        { translation := lit "今天天氣好", pronunciation := [],
          breakdown := twoCharEntry :: List.replicate 4 oneCharEntry,
          grammar_notes := [], native_expression := none, warning := none } =
      [{ word := lit "今天", pronunciation := [], meaning := lit "今天",
         difficulty := lit "medium", note := none }] := by
  rw [(c4_reseg_trigger).1 _ _ _ rfl (by decide) (by decide)]
  decide

/-- Counterexample for C4 as stated: a breakdown of more than 3 entries
averaging exactly 1.2 characters (5 entries, 6 characters total) does
trigger re-segmentation — the pass replaces the breakdown. -/
theorem c4_counterexample :
    resegCond (twoCharEntry :: List.replicate 4 oneCharEntry) = true ∧
    (routesResegPass { trivialCollab with jieba := fun _ => [lit "今天"] } (lit "zh")
        { translation := lit "今天天氣好", pronunciation := [],
          breakdown := twoCharEntry :: List.replicate 4 oneCharEntry,
          grammar_notes := [], native_expression := none, warning := none }).breakdown ≠
      twoCharEntry :: List.replicate 4 oneCharEntry := by
  refine ⟨by decide, ?_⟩
  decide

/-! ### C5 -/

/-- C5: every input word (a whitespace-free string) whose form after
stripping surrounding punctuation/quotes is a key of the curated Hebrew
dictionary romanizes to that key's stored value — the character-level
fallback is never consulted. -/
theorem c5_hebrew_dictionary (w v : Str) (hw : ∀ ch ∈ w, isPySpace ch = false)
    (hv : lookupStr HEBREW_DICT (pyStripChars HEB_PUNCT_QUOTES w) = some v) :
    hebrewRomanize w = v := by
  have hne : w ≠ [] := by
    intro h
    rw [h] at hv
    have hnil : lookupStr HEBREW_DICT (pyStripChars HEB_PUNCT_QUOTES []) = none := by decide
    rw [hnil] at hv
    exact Option.noConfusion hv
  unfold hebrewRomanize
  rw [splitWs_single w hw hne]
  simp [hebrewRomanizeWord, hv]

/-- Witness for C5: the spec's example "שלום" → "shalom". -/
theorem c5_witness : hebrewRomanize (lit "שלום") = lit "shalom" :=
  c5_hebrew_dictionary _ _ (by decide) (by decide)

/-! ### C6 -/

/-- Unfolding of the scanner on two or more characters. -/
theorem greekRomanize_cons2 (a b : Char) (t : Str) :
    greekRomanize (a :: b :: t) =
      match lookupPair GREEK_DIGRAPHS (a, b) with
      | some v => v ++ greekRomanize t
      | none => greekChar a ++ greekRomanize (b :: t) := rfl

/-- A digraph at the head of the input is consumed whole, before any
single-character mapping. -/
theorem greek_digraph_head (a b : Char) (v r : Str)
    (h : lookupPair GREEK_DIGRAPHS (a, b) = some v) :
    greekRomanize (a :: b :: r) = v ++ greekRomanize r := by
  rw [greekRomanize_cons2, h]

/-- A failed digraph probe falls back to the single-character table. -/
theorem greek_step_single (a b : Char) (t : Str)
    (h : lookupPair GREEK_DIGRAPHS (a, b) = none) :
    greekRomanize (a :: b :: t) = greekChar a ++ greekRomanize (b :: t) := by
  rw [greekRomanize_cons2, h]

/-- Pair lookup misses every key whose second component differs. -/
theorem lookupPair_none_of_no_second (tbl : List ((Char × Char) × Str)) (d1 : Char)
    (h : ∀ kv ∈ tbl, kv.1.2 ≠ d1) (x : Char) : lookupPair tbl (x, d1) = none := by
  induction tbl with
  | nil => rfl
  | cons a t ih =>
    unfold lookupPair
    have ha : a.1.2 ≠ d1 := h a (by simp)
    have hne : ¬ (a.1 = (x, d1)) := by
      intro hx
      exact ha (by rw [hx])
    obtain ⟨⟨a1, a2⟩, av⟩ := a
    simp only at hne ⊢
    rw [if_neg hne]
    exact ih (fun kv hkv => h kv (by simp [hkv]))

/-- Any occurrence of a digraph whose first character never appears as the
second character of any digraph is romanized as that digraph, wherever it
occurs: the scanner always arrives exactly at its first character. -/
theorem greek_append (d1 d2 : Char) (v : Str)
    (hd : lookupPair GREEK_DIGRAPHS (d1, d2) = some v)
    (hno : ∀ x : Char, lookupPair GREEK_DIGRAPHS (x, d1) = none)
    (l r : Str) :
    greekRomanize (l ++ d1 :: d2 :: r) = greekRomanize l ++ v ++ greekRomanize r := by
  induction l using greekRomanize.induct with
  | case1 =>
    rw [List.nil_append, greek_digraph_head _ _ _ _ hd]
    rfl
  | case2 a =>
    rw [List.cons_append, List.nil_append, greek_step_single a d1 _ (hno a),
        greek_digraph_head _ _ _ _ hd]
    show greekChar a ++ (v ++ greekRomanize r) = greekChar a ++ v ++ greekRomanize r
    simp [List.append_assoc]
  | case3 a b t s hab ih =>
    rw [List.cons_append, List.cons_append, greek_digraph_head _ _ _ _ hab, ih,
        greek_digraph_head _ _ _ _ hab]
    simp [List.append_assoc]
  | case4 a b t hab ih =>
    rw [List.cons_append, List.cons_append, greek_step_single a b _ hab,
        ← List.cons_append, ih, greek_step_single a b _ hab]
    simp [List.append_assoc]

/-- C6: the Greek transliterator consults the digraph table before the
single-character table at every position, consuming both characters on a
match (first conjunct); consequently every occurrence of "μπ" romanizes to
"b" and every occurrence of "αυ" to "av", wherever it occurs (no digraph's
second character is 'μ' or 'α', so the scanner always reaches the pair). -/
theorem c6_greek_digraphs :
    (∀ (a b : Char) (v r : Str), lookupPair GREEK_DIGRAPHS (a, b) = some v →
        greekRomanize (a :: b :: r) = v ++ greekRomanize r) ∧
    (∀ l r : Str, greekRomanize (l ++ ('μ' :: 'π' :: r)) =
        greekRomanize l ++ lit "b" ++ greekRomanize r) ∧
    (∀ l r : Str, greekRomanize (l ++ ('α' :: 'υ' :: r)) =
        greekRomanize l ++ lit "av" ++ greekRomanize r) := by
  refine ⟨greek_digraph_head, ?_, ?_⟩
  · intro l r
    exact greek_append 'μ' 'π' (lit "b") (by decide)
      (lookupPair_none_of_no_second GREEK_DIGRAPHS 'μ' (by decide)) l r
  · intro l r
    exact greek_append 'α' 'υ' (lit "av") (by decide)
      (lookupPair_none_of_no_second GREEK_DIGRAPHS 'α' (by decide)) l r

/-- Witness for C6 on the spec's example word "ναυτικός". -/
theorem c6_witness : greekRomanize (lit "ναυτικός") = lit "navtikós" := by
  have h := (c6_greek_digraphs).2.2 (lit "ν") (lit "τικός")
  rw [show lit "ναυτικός" = lit "ν" ++ ('α' :: 'υ' :: lit "τικός") from rfl, h]
  decide

/-! ### C7 -/

/-- C7: the Script Dispatcher returns `none` exactly for language codes
outside the eight supported ones; `it`/`es`/`en` return the input text
unchanged, and `he`/`el` return the respective transliterator's output —
for every collaborator instance and every text. -/
theorem c7_dispatcher_domain (c : Collab) (text lang : Str) :
    (deterministicPronunciation c text lang = none ↔
       ¬ (lang = lit "he" ∨ lang = lit "ja" ∨ lang = lit "ko" ∨ lang = lit "en" ∨
          lang = lit "zh" ∨ lang = lit "el" ∨ lang = lit "it" ∨ lang = lit "es")) ∧
    ((lang = lit "it" ∨ lang = lit "es" ∨ lang = lit "en") →
       deterministicPronunciation c text lang = some text) ∧
    (lang = lit "he" → deterministicPronunciation c text lang = some (hebrewRomanize text)) ∧
    (lang = lit "el" → deterministicPronunciation c text lang = some (greekRomanize text)) := by
  refine ⟨⟨?_, ?_⟩, ?_, ?_, ?_⟩
  · intro h
    rintro (hc | hc | hc | hc | hc | hc | hc | hc) <;> subst hc <;>
      exact Option.noConfusion h
  · intro hn
    unfold deterministicPronunciation
    split_ifs with h1 h2 h3 h4 h5 h6
    · exact absurd (by tauto) hn
    · exact absurd (by tauto) hn
    · exact absurd (by tauto) hn
    · exact absurd (by tauto) hn
    · exact absurd (by tauto) hn
    · exact absurd (by tauto) hn
    · rfl
  · rintro (hc | hc | hc) <;> subst hc <;> rfl
  · intro hc; subst hc; rfl
  · intro hc; subst hc; rfl

/-- Witness for C7: the Latin-script branch returns the text unchanged, and
an unknown code yields `none`. -/
theorem c7_witness :
    deterministicPronunciation trivialCollab (lit "ciao") (lit "it") = some (lit "ciao") ∧
    deterministicPronunciation trivialCollab (lit "ciao") (lit "fr") = none := by
  constructor
  · exact (c7_dispatcher_domain trivialCollab (lit "ciao") (lit "it")).2.1 (Or.inl rfl)
  · exact (c7_dispatcher_domain trivialCollab (lit "ciao") (lit "fr")).1.mpr (by decide)

/-! ### C8 -/

/-- C8 (amended): empty input yields the empty string from the Hebrew and
Greek transliterators, and from the Japanese analyzer whenever tokenization
yields no tokens; but whitespace-only input passes through the Hebrew and
Greek transliterators unchanged (`" "`, not `""`).  All three functions are
total Lean functions, so none can raise. -/
theorem c8_empty_whitespace (c : Collab) (h : c.mecab (lit "") = []) :
    hebrewRomanize (lit "") = [] ∧ greekRomanize (lit "") = [] ∧
    japanesePronunciation c (lit "") = [] ∧
    hebrewRomanize (lit " ") = lit " " ∧ greekRomanize (lit " ") = lit " " := by
  refine ⟨by decide, by decide, ?_, by decide, by decide⟩
  unfold japanesePronunciation
  rw [h]
  rfl

/-- Witness for C8's amended theorem. -/
theorem c8_witness :
    hebrewRomanize (lit "") = [] ∧ greekRomanize (lit "") = [] ∧
    japanesePronunciation trivialCollab (lit "") = [] ∧
    hebrewRomanize (lit " ") = lit " " ∧ greekRomanize (lit " ") = lit " " :=
  c8_empty_whitespace trivialCollab rfl

/-- Counterexample for C8 as stated: on the whitespace-only input `" "` the
Hebrew and Greek transliterators return `" "`, not the empty string. -/
theorem c8_counterexample :
    hebrewRomanize (lit " ") ≠ [] ∧ greekRomanize (lit " ") ≠ [] := by
  constructor
  · decide
  · decide

/-! ### C9 -/

/-- C9: the pronunciation-override pass replaces the top-level
pronunciation and each entry's pronunciation only when the dispatcher
returns a non-empty string for that text; a `none` or empty answer leaves
the LLM-supplied field unchanged.  Stated for an arbitrary dispatcher, so
it covers both the routes.py instance (llm.py's dispatcher) and the
backend.py instance. -/
theorem c9_pron_override (d : Str → Option Str) (p : Payload) :
    ((d p.translation = none ∨ d p.translation = some [] →
        (pronPass d p).pronunciation = p.pronunciation) ∧
     (∀ s : Str, d p.translation = some s → s ≠ [] →
        (pronPass d p).pronunciation = s)) ∧
    ((pronPass d p).breakdown.length = p.breakdown.length ∧
     (∀ i : Nat, ∀ hi : i < p.breakdown.length, ∀ hi2 : i < (pronPass d p).breakdown.length,
        ((pronPass d p).breakdown.get ⟨i, hi2⟩).word = (p.breakdown.get ⟨i, hi⟩).word ∧
        (d (p.breakdown.get ⟨i, hi⟩).word = none ∨
            d (p.breakdown.get ⟨i, hi⟩).word = some [] →
          ((pronPass d p).breakdown.get ⟨i, hi2⟩).pronunciation =
            (p.breakdown.get ⟨i, hi⟩).pronunciation) ∧
        (∀ s : Str, d (p.breakdown.get ⟨i, hi⟩).word = some s → s ≠ [] →
          ((pronPass d p).breakdown.get ⟨i, hi2⟩).pronunciation = s))) := by
  have hbd : (pronPass d p).breakdown = p.breakdown.map (itemPron d) := rfl
  have hitem : ∀ it : WordEntry,
      (itemPron d it).word = it.word ∧
      (d it.word = none ∨ d it.word = some [] →
        (itemPron d it).pronunciation = it.pronunciation) ∧
      (∀ s : Str, d it.word = some s → s ≠ [] → (itemPron d it).pronunciation = s) := by
    intro it
    refine ⟨rfl, ?_, ?_⟩
    · rintro (h | h) <;> simp [itemPron, truthyStr, h]
    · intro s hs hne
      simp [itemPron, truthyStr, hs, hne]
  refine ⟨⟨?_, ?_⟩, ?_, ?_⟩
  · rintro (h | h) <;> simp [pronPass, truthyStr, h]
  · intro s hs hne
    simp [pronPass, truthyStr, hs, hne]
  · rw [hbd, List.length_map]
  · intro i hi hi2
    have hget : (pronPass d p).breakdown.get ⟨i, hi2⟩ =
        itemPron d (p.breakdown.get ⟨i, hi⟩) := by
      have h0 := List.get_of_eq hbd ⟨i, hi2⟩
      rw [h0]
      simp [List.getElem_map]
    rw [hget]
    exact hitem _

/-- Witness for C9: an empty dispatcher answer leaves the pronunciation
untouched. -/
theorem c9_witness :
    (pronPass (fun _ => some [])
        { translation := lit "x", pronunciation := lit "p", breakdown := [],
          grammar_notes := [], native_expression := none, warning := none }).pronunciation =
      lit "p" :=
  (c9_pron_override (fun _ => some [])
    { translation := lit "x", pronunciation := lit "p", breakdown := [],
      grammar_notes := [], native_expression := none, warning := none }).1.1 (Or.inr rfl)

/-! ### C3 -/

/-- The meaning cleanup never changes the word. -/
theorem cleanMeaningEntry_word (it : WordEntry) : (cleanMeaningEntry it).word = it.word := by
  unfold cleanMeaningEntry
  split_ifs <;> rfl

/-- The keep condition depends only on the entry's word. -/
theorem routesKeep_congr (t : Str) (a b : WordEntry) (h : a.word = b.word) :
    routesKeep t a = routesKeep t b := by
  unfold routesKeep
  rw [h]

/-- After the filter pass (and the later passes, which do not touch words
or the translation), a non-empty translation forces every surviving entry
to pass the containment check. -/
theorem post_filter_fidelity (c : Collab) (inputZh : Bool) (lang : Str) (q : Payload)
    (ht : (explLangPass inputZh (routesNativeFix c inputZh lang
        (genderPass lang (routesFilterPass q)))).translation ≠ []) :
    ∀ it ∈ (explLangPass inputZh (routesNativeFix c inputZh lang
        (genderPass lang (routesFilterPass q)))).breakdown,
      routesKeep (explLangPass inputZh (routesNativeFix c inputZh lang
        (genderPass lang (routesFilterPass q)))).translation it = true := by
  intro it hit
  have hT : (explLangPass inputZh (routesNativeFix c inputZh lang
      (genderPass lang (routesFilterPass q)))).translation = q.translation := rfl
  have hBD : (explLangPass inputZh (routesNativeFix c inputZh lang
      (genderPass lang (routesFilterPass q)))).breakdown =
      (if inputZh then (routesFilterPass q).breakdown
       else (routesFilterPass q).breakdown.map cleanMeaningEntry) := rfl
  rw [hT] at ht ⊢
  rw [hBD] at hit
  have hfb : ∃ it0 ∈ (routesFilterPass q).breakdown, it.word = it0.word := by
    by_cases hz : inputZh
    · rw [if_pos hz] at hit
      exact ⟨it, hit, rfl⟩
    · rw [if_neg hz] at hit
      obtain ⟨it0, h0, heq⟩ := List.mem_map.mp hit
      exact ⟨it0, h0, by rw [← heq, cleanMeaningEntry_word]⟩
  obtain ⟨it0, h0, hw⟩ := hfb
  rw [routesKeep_congr q.translation it it0 hw]
  have hfilter : (routesFilterPass q).breakdown =
      (if q.breakdown ≠ [] ∧ q.translation ≠ [] then
        q.breakdown.filter (routesKeep q.translation)
      else q.breakdown) := rfl
  rw [hfilter] at h0
  by_cases hc : q.breakdown ≠ [] ∧ q.translation ≠ []
  · rw [if_pos hc] at h0
    exact (List.mem_filter.mp h0).2
  · rw [if_neg hc] at h0
    push_neg at hc
    have hbd0 : q.breakdown = [] := by
      by_contra hne
      exact ht (hc hne)
    rw [hbd0] at h0
    exact absurd h0 (List.not_mem_nil it0)

/-- C3 (amended): after the routes.py repair pipeline returns, if the
translation is non-empty then every surviving breakdown entry's word (with
spaces stripped) is a substring of the punctuation-stripped translation;
when the translation is empty the filter pass is skipped and entries
survive unchecked. -/
theorem c3_fidelity_invariant (c : Collab) (sentence : Str) (inputZh : Bool) (lang : Str)
    (p : Payload) (ht : (routesRepair c sentence inputZh lang p).translation ≠ []) :
    ∀ it ∈ (routesRepair c sentence inputZh lang p).breakdown,
      routesKeep (routesRepair c sentence inputZh lang p).translation it = true :=
  post_filter_fidelity c inputZh lang
    (routesResegPass c lang
      (pronPass (fun t => deterministicPronunciation c t lang)
        (leakPass lang (echoPass sentence inputZh lang p)))) ht

/-- The payload of C3's witness: a faithful entry that survives. -/
def c3WitnessPayload : Payload :=
  { translation := lit "שלום", pronunciation := [],
    breakdown := [{ word := lit "שלום", pronunciation := [], meaning := lit "hi",
                    difficulty := lit "easy", note := none }],
    grammar_notes := [], native_expression := none, warning := none }

/-- Witness for C3's amended theorem: the surviving entry passes the
check. -/
theorem c3_witness :
    (routesRepair trivialCollab (lit "hello") false (lit "he")
        c3WitnessPayload).translation ≠ [] ∧
    routesKeep (routesRepair trivialCollab (lit "hello") false (lit "he")
        c3WitnessPayload).translation
      { word := lit "שלום", pronunciation := lit "shalom", meaning := lit "hi",
        difficulty := lit "easy", note := none } = true :=
  ⟨by decide,
    c3_fidelity_invariant trivialCollab (lit "hello") false (lit "he") c3WitnessPayload
      (by decide)
      { word := lit "שלום", pronunciation := lit "shalom", meaning := lit "hi",
        difficulty := lit "easy", note := none }
      (by decide)⟩

/-- The payload of C3's counterexample: empty translation, one breakdown
entry whose word occurs nowhere in it. -/
def c3Payload : Payload :=
  { translation := [], pronunciation := [],
    breakdown := [{ word := lit "x", pronunciation := [], meaning := [],
                    difficulty := lit "easy", note := none }],
    grammar_notes := [], native_expression := none, warning := none }

/-- Counterexample for C3 as stated: with an empty translation the filter
is skipped, the hallucinated entry survives, and it fails the containment
check. -/
theorem c3_counterexample :
    (routesRepair trivialCollab (lit "hi") false (lit "he") c3Payload).breakdown =
      [{ word := lit "x", pronunciation := lit "x", meaning := [],
         difficulty := lit "easy", note := none }] ∧
    routesKeep (routesRepair trivialCollab (lit "hi") false (lit "he") c3Payload).translation
      { word := lit "x", pronunciation := lit "x", meaning := [],
        difficulty := lit "easy", note := none } = false := by
  constructor
  · decide
  · decide

/-! ### C10 -/

/-- A successful first-occurrence split implies the character occurs. -/
theorem contains_of_splitFirst (ch : Char) (s : Str) (a b : Str)
    (h : splitFirst ch s = some (a, b)) : s.contains ch = true := by
  induction s generalizing a b with
  | nil => simp [splitFirst] at h
  | cons x t ih =>
    unfold splitFirst at h
    by_cases hx : x = ch
    · simp [List.contains_cons, hx]
    · rw [if_neg hx] at h
      match ht : splitFirst ch t with
      | some (y, z) =>
        rw [ht] at h
        have hmem : ch ∈ t := by simpa using ih y z ht
        simp [List.contains_cons, hmem]
      | none =>
        rw [ht] at h
        exact Option.noConfusion h

/-- The backend dispatcher knows only `ja`, `zh` and `ko`. -/
theorem backendPronunciation_none (c : Collab) (t lang : Str)
    (hja : lang ≠ lit "ja") (hzh : lang ≠ lit "zh") (hko : lang ≠ lit "ko") :
    backendPronunciation c t lang = none := by
  unfold backendPronunciation
  rw [if_neg hja, if_neg hzh, if_neg hko]

/-- C10 (amended): the two pipeline implementations are not equivalent.
For any target language outside backend.py's dispatcher (`ja`/`zh`/`ko`)
and any pipe-delimited `native_expression` (at least two pipes) whose
sentence portion is punctuation-normalized-equal to the translation, the
routes.py sanitization pass nulls the field while the backend.py pass
leaves it completely unchanged (its dispatcher yields no pronunciation, so
the reassembly is skipped, and the pipe branch never nulls). -/
theorem c10_native_divergence (c : Collab) (inputZh : Bool) (lang : Str) (p : Payload)
    (s0 a rest b c2 : Str)
    (hja : lang ≠ lit "ja") (hzh : lang ≠ lit "zh") (hko : lang ≠ lit "ko")
    (h0 : p.native_expression = some s0) (hs0 : s0 ≠ [])
    (hsp : splitFirst '|' s0 = some (a, rest))
    (hsp2 : splitFirst '|' rest = some (b, c2))
    (heq : natNorm (nativeParts s0).1 = natNorm p.translation) :
    (routesNativeFix c inputZh lang p).native_expression = none ∧
    (backendNativeFix c inputZh lang p).native_expression = some s0 := by
  constructor
  · show natFix c inputZh lang p.translation p.native_expression = none
    rw [h0]
    unfold natFix
    simp [hs0, heq]
  · show backendNatFix c inputZh lang p.translation p.native_expression = some s0
    rw [h0]
    unfold backendNatFix
    have hcont : s0.contains '|' = true := contains_of_splitFirst '|' s0 a rest hsp
    have hmem : '|' ∈ s0 := by simpa using hcont
    have hbp : truthyStr (backendPronunciation c (pyStripWs a) lang) = none := by
      rw [backendPronunciation_none c _ lang hja hzh hko]
      rfl
    simp [hs0, hsp, hsp2, hbp, hmem]

/-- The payload of C10's counterexample and witness: the pipe-delimited
native expression duplicates the translation. -/
def c10Payload : Payload :=
  { translation := lit "שלום", pronunciation := [],
    breakdown := [], grammar_notes := [],
    native_expression := some (lit "שלום | shalom | hi"),
    warning := none }

/-- Witness for C10's amended theorem at a concrete Hebrew payload. -/
theorem c10_witness :
    (routesNativeFix trivialCollab false (lit "he") c10Payload).native_expression = none ∧
    (backendNativeFix trivialCollab false (lit "he") c10Payload).native_expression =
      some (lit "שלום | shalom | hi") :=
  c10_native_divergence trivialCollab false (lit "he") c10Payload
    (lit "שלום | shalom | hi") (lit "שלום ") (lit " shalom | hi") (lit " shalom ") (lit " hi")
    (by decide) (by decide) (by decide) rfl (by decide) (by decide) (by decide) (by decide)

/-- The full-pipeline counterexample payload for C10: a Japanese target
whose pipe-delimited native expression duplicates the translation. -/
def c10JaPayload : Payload :=
  { translation := lit "今日はいい天気ですね", pronunciation := lit "p", breakdown := [],
    grammar_notes := [],
    native_expression := some (lit "今日はいい天気ですね | kyou wa ii tenki desu ne | explanation"),
    warning := none }

/-- Counterexample for C10 as stated: on identical inputs and identical
collaborator outputs, the two full pipelines produce different repaired
payloads (routes.py nulls the duplicated native expression, backend.py
keeps it). -/
theorem c10_counterexample :
    routesRepair trivialCollab (lit "今天天氣真好") true (lit "ja") c10JaPayload ≠
      backendRepair trivialCollab (lit "今天天氣真好") true (lit "ja") c10JaPayload := by
  decide

/-! ### C2: string-operation lemmas -/

/-- A second `dropWhile` by the same predicate is a no-op. -/
theorem dropWhile_idem (p : Char → Bool) (l : Str) :
    (l.dropWhile p).dropWhile p = l.dropWhile p := by
  induction l with
  | nil => rfl
  | cons a t ih =>
    by_cases h : p a = true
    · rw [List.dropWhile_cons_of_pos h, ih]
    · rw [List.dropWhile_cons_of_neg (by simp [h]),
          List.dropWhile_cons_of_neg (by simp [h])]

/-- The right strip is idempotent. -/
theorem rstripP_idem (p : Char → Bool) (s : Str) :
    rstripP p (rstripP p s) = rstripP p s := by
  unfold rstripP
  rw [List.reverse_reverse, dropWhile_idem]

/-- `dropWhile` yields a suffix. -/
theorem dropWhile_suffix_of (p : Char → Bool) (l : Str) : l.dropWhile p <:+ l := by
  induction l with
  | nil => exact List.suffix_refl []
  | cons a t ih =>
    by_cases h : p a = true
    · rw [List.dropWhile_cons_of_pos h]
      exact ih.trans (List.suffix_cons a t)
    · rw [List.dropWhile_cons_of_neg (by simp [h])]

/-- The right strip yields a prefix. -/
theorem rstripP_pref (p : Char → Bool) (s : Str) : rstripP p s <+: s := by
  obtain ⟨u, hu⟩ := dropWhile_suffix_of p s.reverse
  refine ⟨u.reverse, ?_⟩
  rw [rstripP, ← List.reverse_append, hu, List.reverse_reverse]

/-- The head of a `dropWhile` result falsifies the predicate. -/
theorem dropWhile_head_not (p : Char → Bool) (l : Str) (c : Char) (t : Str)
    (h : l.dropWhile p = c :: t) : p c = false := by
  induction l with
  | nil => exact absurd h (by simp)
  | cons a l2 ih =>
    by_cases ha : p a = true
    · rw [List.dropWhile_cons_of_pos ha] at h
      exact ih h
    · rw [List.dropWhile_cons_of_neg (by simp [ha])] at h
      cases h
      simpa using ha

/-- Left-stripping after a right strip of a left-stripped string changes
nothing: the head survives the right strip. -/
theorem lstripP_rstripP_lstripP (p : Char → Bool) (s : Str) :
    lstripP p (rstripP p (lstripP p s)) = rstripP p (lstripP p s) := by
  match h : lstripP p s with
  | [] => rfl
  | c :: t =>
    have hc : p c = false := dropWhile_head_not p s c t h
    rcases rstripP_pref p (c :: t) with ⟨u, hu⟩
    match h2 : rstripP p (c :: t) with
    | [] => rfl
    | d :: v =>
      have hd : d = c := by
        rw [h2] at hu
        exact (List.cons.injEq d (v ++ u) c t).mp hu |>.1
      subst hd
      exact List.dropWhile_cons_of_neg (by simp [hc])

/-- Python `strip()` is idempotent. -/
theorem pyStripWs_idem (s : Str) : pyStripWs (pyStripWs s) = pyStripWs s := by
  unfold pyStripWs
  rw [lstripP_rstripP_lstripP, rstripP_idem]

/-- A strip-fixed string is also left-strip-fixed. -/
theorem lstrip_of_stripFixed (s : Str) (h : pyStripWs s = s) :
    lstripP isPySpace s = s := by
  have h1 : (lstripP isPySpace s) <:+ s := dropWhile_suffix_of _ s
  have h2 : pyStripWs s <+: lstripP isPySpace s := rstripP_pref _ _
  have hlen1 : s.length ≤ (lstripP isPySpace s).length := by
    have := h2.length_le
    rw [h] at this
    exact this
  exact h1.sublist.eq_of_length (Nat.le_antisymm h1.sublist.length_le hlen1)

/-- A strip-fixed string is also right-strip-fixed. -/
theorem rstrip_of_stripFixed (s : Str) (h : pyStripWs s = s) :
    rstripP isPySpace s = s := by
  have h0 := lstrip_of_stripFixed s h
  calc rstripP isPySpace s = rstripP isPySpace (lstripP isPySpace s) := by rw [h0]
    _ = s := h

/-- Dropping over an all-satisfying block continues into the second part. -/
theorem dropWhile_append_all (p : Char → Bool) (l1 l2 : Str) (h : ∀ a ∈ l1, p a = true) :
    (l1 ++ l2).dropWhile p = l2.dropWhile p := by
  induction l1 with
  | nil => rw [List.nil_append]
  | cons a t ih =>
    rw [List.cons_append, List.dropWhile_cons_of_pos (h a (by simp))]
    exact ih (fun b hb => h b (by simp [hb]))

/-- Appending characters satisfying the predicate does not change a right
strip. -/
theorem rstripP_append_all (p : Char → Bool) (x y : Str) (h : ∀ a ∈ y, p a = true) :
    rstripP p (x ++ y) = rstripP p x := by
  unfold rstripP
  rw [List.reverse_append,
      dropWhile_append_all p y.reverse x.reverse (fun a ha => h a (List.mem_reverse.mp ha))]

/-- Appending one space to a strip-fixed string strips back to it. -/
theorem stripFixed_append_space (ns : Str) (h : pyStripWs ns = ns) :
    pyStripWs (ns ++ [' ']) = ns := by
  match hns : ns with
  | [] => rfl
  | c :: t =>
    have hl : lstripP isPySpace (c :: t) = c :: t := by
      rw [← hns] at h ⊢
      exact lstrip_of_stripFixed ns h
    have hc : isPySpace c = false := by
      have := dropWhile_head_not isPySpace (c :: t) c t hl
      exact this
    unfold pyStripWs
    rw [← hns] at h
    rw [show lstripP isPySpace ((c :: t) ++ [' ']) = (c :: t) ++ [' '] from
        List.dropWhile_cons_of_neg (by simp [hc])]
    rw [rstripP_append_all isPySpace (c :: t) [' '] (by intro a ha; simp at ha; simp [ha, isPySpace])]
    rw [← hns]
    exact rstrip_of_stripFixed ns h

/-- Prepending one space to a strip-fixed string strips back to it. -/
theorem stripFixed_cons_space (ne : Str) (h : pyStripWs ne = ne) :
    pyStripWs (' ' :: ne) = ne := by
  unfold pyStripWs
  rw [show lstripP isPySpace (' ' :: ne) = lstripP isPySpace ne from
      List.dropWhile_cons_of_pos (by simp [isPySpace])]
  rw [lstrip_of_stripFixed ne h]
  exact rstrip_of_stripFixed ne h

/-- A right strip is a no-op when the last character (if any) fails the
predicate. -/
theorem rstripP_noop (p : Char → Bool) (s : Str)
    (h : ∀ c, s.getLast? = some c → p c = false) : rstripP p s = s := by
  match hs : s with
  | [] => rfl
  | c :: t =>
    unfold rstripP
    match hr : (c :: t).reverse with
    | [] => exact absurd hr (by simp)
    | d :: v =>
      have hd : (c :: t).getLast? = some d := by
        rw [← List.head?_reverse, hr]
        rfl
      rw [List.dropWhile_cons_of_neg (by simp [h d hd]), ← hr, List.reverse_reverse]

/-- Splitting a right strip over an append. -/
theorem rstripP_append_split (p : Char → Bool) (x y : Str) :
    rstripP p (x ++ y) =
      (if rstripP p y = [] then rstripP p x else x ++ rstripP p y) := by
  unfold rstripP
  rw [List.reverse_append, List.dropWhile_append]
  by_cases hy : (y.reverse.dropWhile p) = []
  · rw [if_pos (by simp [hy]), if_pos (by rw [hy]; rfl)]
  · rw [if_neg (by simpa using hy), if_neg (by simpa using hy)]
    rw [List.reverse_append, List.reverse_reverse]

/-- Constructing the first-occurrence split. -/
theorem splitFirst_append (ch : Char) (x y : Str) (hx : ch ∉ x) :
    splitFirst ch (x ++ ch :: y) = some (x, y) := by
  induction x with
  | nil =>
    unfold splitFirst
    simp
  | cons a t ih =>
    have ha : a ≠ ch := by
      intro h
      exact hx (by simp [h])
    rw [List.cons_append]
    unfold splitFirst
    rw [if_neg ha, ih (fun hm => hx (by simp [hm]))]

/-- A character that does not occur yields no split. -/
theorem splitFirst_none (ch : Char) (s : Str) (hs : ch ∉ s) : splitFirst ch s = none := by
  induction s with
  | nil => rfl
  | cons a t ih =>
    unfold splitFirst
    rw [if_neg (fun h => hs (by simp [h])), ih (fun h => hs (by simp [h]))]

/-- Members of a left strip are members of the string. -/
theorem mem_of_mem_lstripP (p : Char → Bool) (s : Str) (c : Char)
    (h : c ∈ lstripP p s) : c ∈ s :=
  (dropWhile_suffix_of p s).sublist.mem h

/-- Members of a right strip are members of the string. -/
theorem mem_of_mem_rstripP (p : Char → Bool) (s : Str) (c : Char)
    (h : c ∈ rstripP p s) : c ∈ s :=
  (rstripP_pref p s).sublist.mem h

/-- Members of a stripped string are members of the string. -/
theorem mem_of_mem_pyStripWs (s : Str) (c : Char) (h : c ∈ pyStripWs s) : c ∈ s :=
  mem_of_mem_lstripP _ _ _ (mem_of_mem_rstripP _ _ _ h)

/-- Members of a character-stripped string are members of the string. -/
theorem mem_of_mem_pyStripChars (cs : List Char) (s : Str) (c : Char)
    (h : c ∈ pyStripChars cs s) : c ∈ s :=
  mem_of_mem_lstripP _ _ _ (mem_of_mem_rstripP _ _ _ h)

/-- Characters of any `split()` word are characters of the input. -/
theorem splitWsAux_chars (s : Str) : ∀ (cur w : Str), w ∈ splitWsAux cur s →
    ∀ c ∈ w, c ∈ cur ∨ c ∈ s := by
  induction s with
  | nil =>
    intro cur w hw c hc
    unfold splitWsAux at hw
    split_ifs at hw with h
    · exact absurd hw (List.not_mem_nil w)
    · left
      simp at hw
      rw [hw] at hc
      exact List.mem_reverse.mp hc
  | cons a t ih =>
    intro cur w hw c hc
    unfold splitWsAux at hw
    split_ifs at hw with h1 h2
    · rcases ih [] w hw c hc with h | h
      · exact absurd h (List.not_mem_nil c)
      · right; simp [h]
    · rcases List.mem_cons.mp hw with h | h
      · left
        rw [h] at hc
        exact List.mem_reverse.mp hc
      · rcases ih [] w h c hc with h3 | h3
        · exact absurd h3 (List.not_mem_nil c)
        · right; simp [h3]
    · rcases ih (a :: cur) w hw c hc with h3 | h3
      · rcases List.mem_cons.mp h3 with h4 | h4
        · right; simp [h4]
        · left; exact h4
      · right; simp [h3]

/-- Characters of `split()` words are characters of the input. -/
theorem splitWs_chars (s w : Str) (hw : w ∈ splitWs s) (c : Char) (hc : c ∈ w) : c ∈ s := by
  rcases splitWsAux_chars s [] w hw c hc with h | h
  · exact absurd h (List.not_mem_nil c)
  · exact h

/-- Members of a join are members of the separator or of some part. -/
theorem mem_joinStr (sep : Str) (parts : List Str) (c : Char)
    (h : c ∈ joinStr sep parts) : c ∈ sep ∨ ∃ w ∈ parts, c ∈ w := by
  induction parts using joinStr.induct sep with
  | case1 => exact absurd h (List.not_mem_nil c)
  | case2 x =>
    right
    exact ⟨x, by simp, h⟩
  | case3 x y t ih =>
    unfold joinStr at h
    rcases List.mem_append.mp h with h1 | h1
    · rcases List.mem_append.mp h1 with h2 | h2
      · right; exact ⟨x, by simp, h2⟩
      · left; exact h2
    · rcases ih h1 with h2 | ⟨w, hw, hcw⟩
      · left; exact h2
      · right; exact ⟨w, by simp [List.mem_cons.mp hw], hcw⟩

/-- Successful character lookups come from the table. -/
theorem lookupChar_mem (tbl : List (Char × Str)) (k : Char) (v : Str)
    (h : lookupChar tbl k = some v) : (k, v) ∈ tbl := by
  induction tbl with
  | nil => exact Option.noConfusion h
  | cons a t ih =>
    unfold lookupChar at h
    split_ifs at h with ha
    · cases h
      have he : (k, a.2) = a := by rw [← ha]
      rw [he]
      exact List.mem_cons_self a t
    · right
      exact ih h

/-- Successful pair lookups come from the table. -/
theorem lookupPair_mem (tbl : List ((Char × Char) × Str)) (k : Char × Char) (v : Str)
    (h : lookupPair tbl k = some v) : (k, v) ∈ tbl := by
  induction tbl with
  | nil => exact Option.noConfusion h
  | cons a t ih =>
    unfold lookupPair at h
    split_ifs at h with ha
    · cases h
      have he : (k, a.2) = a := by rw [← ha]
      rw [he]
      exact List.mem_cons_self a t
    · right
      exact ih h

/-- Successful string lookups come from the table. -/
theorem lookupStr_mem (tbl : List (Str × Str)) (k : Str) (v : Str)
    (h : lookupStr tbl k = some v) : (k, v) ∈ tbl := by
  induction tbl with
  | nil => exact Option.noConfusion h
  | cons a t ih =>
    unfold lookupStr at h
    split_ifs at h with ha
    · cases h
      have he : (k, a.2) = a := by rw [← ha]
      rw [he]
      exact List.mem_cons_self a t
    · right
      exact ih h

/-! ### C2: the dispatcher output for the fully-embedded languages contains
no pipe when its input contains none -/

/-- The Greek single-character map never yields a pipe (no table value
contains one; pass-through keeps an input character). -/
theorem greekChar_no_pipe (a : Char) (ha : a ≠ '|') : '|' ∉ greekChar a := by
  unfold greekChar
  match h : lookupChar GREEK_TRANSLIT a with
  | some v =>
    have hm := lookupChar_mem GREEK_TRANSLIT a v h
    have hall : ∀ kv ∈ GREEK_TRANSLIT, '|' ∉ kv.2 := by decide
    exact hall (a, v) hm
  | none =>
    simp [Ne.symm ha]

/-- The Greek transliterator never introduces a pipe. -/
theorem greekRomanize_no_pipe (s : Str) (hs : '|' ∉ s) : '|' ∉ greekRomanize s := by
  induction s using greekRomanize.induct with
  | case1 => simp [greekRomanize]
  | case2 a =>
    show '|' ∉ greekChar a
    exact greekChar_no_pipe a (fun h => hs (by simp [h]))
  | case3 a b t v hab ih =>
    rw [greek_digraph_head a b v t hab]
    intro hmm
    rcases List.mem_append.mp hmm with h1 | h1
    · have hm := lookupPair_mem GREEK_DIGRAPHS (a, b) v hab
      have hall : ∀ kv ∈ GREEK_DIGRAPHS, '|' ∉ kv.2 := by decide
      exact hall ((a, b), v) hm h1
    · exact ih (fun h => hs (by simp at h ⊢; tauto)) h1
  | case4 a b t hab ih =>
    rw [greek_step_single a b t hab]
    intro hmm
    rcases List.mem_append.mp hmm with h1 | h1
    · exact greekChar_no_pipe a (fun h => hs (by simp [h])) h1
    · exact ih (fun h => hs (by simp at h ⊢; tauto)) h1

/-- The single-character Hebrew step never yields a pipe. -/
theorem hebSingle_no_pipe (prev : Option Char) (a : Char) (next : Option Char)
    (ha : a ≠ '|') : '|' ∉ hebSingle prev a next := by
  unfold hebSingle
  match h : lookupChar HEBREW_VOWELS a with
  | some v =>
    show '|' ∉ v
    have hm := lookupChar_mem HEBREW_VOWELS a v h
    have hall : ∀ kv ∈ HEBREW_VOWELS, '|' ∉ kv.2 := by decide
    exact hall (a, v) hm
  | none =>
    show '|' ∉ (if isMn a = true then ([] : Str)
      else if a = 'ו' then hebVav prev.isNone (hebPrevIsCons prev) (hebNextIsCons next)
      else if a = 'י' then hebYod (hebPrevIsCons prev) (hebNextIsCons next)
      else match lookupChar HEBREW_CONSLIT a with
        | some v => v
        | none => [a])
    have hvav : ∀ x y z : Bool, '|' ∉ hebVav x y z := by decide
    have hyod : ∀ x y : Bool, '|' ∉ hebYod x y := by decide
    split_ifs
    · simp
    · exact hvav _ _ _
    · exact hyod _ _
    · match h2 : lookupChar HEBREW_CONSLIT a with
      | some v =>
        show '|' ∉ v
        have hm := lookupChar_mem HEBREW_CONSLIT a v h2
        have hall : ∀ kv ∈ HEBREW_CONSLIT, '|' ∉ kv.2 := by decide
        exact hall (a, v) hm
      | none =>
        show '|' ∉ [a]
        simp [Ne.symm ha]

/-- The Hebrew fallback state machine never introduces a pipe. -/
theorem hebFallbackAux_no_pipe (prev : Option Char) (s : Str) (hs : '|' ∉ s) :
    '|' ∉ hebFallbackAux prev s := by
  induction prev, s using hebFallbackAux.induct with
  | case1 _ => simp [hebFallbackAux]
  | case2 prev c =>
    show '|' ∉ hebSingle prev c none
    exact hebSingle_no_pipe prev c none (fun h => hs (by simp [h]))
  | case3 prev c d rest v hp ih =>
    show '|' ∉ hebFallbackAux prev (c :: d :: rest)
    unfold hebFallbackAux
    rw [hp]
    intro hmm
    rcases List.mem_append.mp hmm with h1 | h1
    · have hm := lookupPair_mem HEBREW_DAGESH (c, d) v hp
      have hall : ∀ kv ∈ HEBREW_DAGESH, '|' ∉ kv.2 := by decide
      exact hall ((c, d), v) hm h1
    · exact ih (fun h => hs (by simp at h ⊢; tauto)) h1
  | case4 prev c d rest hp hvv ih =>
    show '|' ∉ hebFallbackAux prev (c :: d :: rest)
    unfold hebFallbackAux
    rw [hp, if_pos hvv]
    intro hmm
    rcases List.mem_cons.mp hmm with h1 | h1
    · exact absurd h1.symm (by decide)
    · exact ih (fun h => hs (by simp at h ⊢; tauto)) h1
  | case5 prev c d rest hp hvv ih =>
    show '|' ∉ hebFallbackAux prev (c :: d :: rest)
    unfold hebFallbackAux
    rw [hp, if_neg hvv]
    intro hmm
    rcases List.mem_append.mp hmm with h1 | h1
    · exact hebSingle_no_pipe prev c (some d) (fun h => hs (by simp [h])) h1
    · exact ih (fun h => hs (by simp at h ⊢; tauto)) h1

/-- The Hebrew single-word path never introduces a pipe. -/
theorem hebrewRomanizeWord_no_pipe (w : Str) (hw : '|' ∉ w) :
    '|' ∉ hebrewRomanizeWord w := by
  unfold hebrewRomanizeWord
  match h : lookupStr HEBREW_DICT (pyStripChars HEB_PUNCT_QUOTES w) with
  | some v =>
    have hm := lookupStr_mem _ _ _ h
    have hall : ∀ kv ∈ HEBREW_DICT, '|' ∉ kv.2 := by decide
    exact hall _ hm
  | none =>
    exact hebFallbackAux_no_pipe none w hw

/-- The Hebrew transliterator never introduces a pipe. -/
theorem hebrewRomanize_no_pipe (s : Str) (hs : '|' ∉ s) : '|' ∉ hebrewRomanize s := by
  unfold hebrewRomanize
  show '|' ∉ (if (splitWs s).length > 1 then
      joinStr (lit " ") (List.map hebrewRomanizeWord (splitWs s))
    else hebrewRomanizeWord s)
  split_ifs
  · intro hmm
    rcases mem_joinStr _ _ _ hmm with h1 | ⟨w, hw, hcw⟩
    · exact absurd h1 (by decide)
    · rcases List.mem_map.mp hw with ⟨w0, hw0, hmap⟩
      have hw0p : '|' ∉ w0 := fun h => hs (splitWs_chars s w0 hw0 '|' h)
      rw [← hmap] at hcw
      exact hebrewRomanizeWord_no_pipe w0 hw0p hcw
  · exact hebrewRomanizeWord_no_pipe s hs

/-- For the five fully-embedded target languages the dispatcher's output
(with the `or ""` default) contains no pipe when its input contains
none. -/
theorem llmPron_no_pipe (c : Collab) (lang ns : Str)
    (hlang : lang = lit "he" ∨ lang = lit "el" ∨ lang = lit "it" ∨ lang = lit "es" ∨
      lang = lit "en")
    (hns : '|' ∉ ns) :
    '|' ∉ (deterministicPronunciation c ns lang).getD [] := by
  rcases hlang with h | h | h | h | h <;> subst h
  · show '|' ∉ hebrewRomanize ns
    exact hebrewRomanize_no_pipe ns hns
  · show '|' ∉ greekRomanize ns
    exact greekRomanize_no_pipe ns hns
  · exact hns
  · exact hns
  · exact hns

/-! ### C2: lemmas about the native-expression parse -/

/-- Characterization of a successful first-occurrence split. -/
theorem splitFirst_spec (ch : Char) (s : Str) : ∀ a b : Str,
    splitFirst ch s = some (a, b) → s = a ++ ch :: b ∧ ch ∉ a := by
  induction s with
  | nil => intro a b h; exact Option.noConfusion h
  | cons x t ih =>
    intro a b h
    unfold splitFirst at h
    by_cases hx : x = ch
    · rw [if_pos hx] at h
      cases h
      subst hx
      exact ⟨rfl, List.not_mem_nil _⟩
    · rw [if_neg hx] at h
      cases h2 : splitFirst ch t with
      | none => rw [h2] at h; exact Option.noConfusion h
      | some p =>
        rw [h2] at h
        cases h
        obtain ⟨hs, hna⟩ := ih p.1 p.2 (by rw [h2])
        constructor
        · rw [List.cons_append, ← hs]
        · intro hm
          rcases List.mem_cons.mp hm with h3 | h3
          · exact hx h3.symm
          · exact hna h3

/-- A present character always splits. -/
theorem splitFirst_isSome_of_mem (ch : Char) (s : Str) (h : ch ∈ s) :
    (splitFirst ch s).isSome = true := by
  induction s with
  | nil => exact absurd h (List.not_mem_nil ch)
  | cons x t ih =>
    unfold splitFirst
    by_cases hx : x = ch
    · rw [if_pos hx]; rfl
    · rw [if_neg hx]
      have hm : ch ∈ t := by
        rcases List.mem_cons.mp h with h2 | h2
        · exact absurd h2.symm hx
        · exact h2
      match h2 : splitFirst ch t with
      | some p => rfl
      | none => rw [h2] at ih; exact absurd (ih hm) (by simp)

/-- Unfolding the parse when two pipes occur. -/
theorem nativeParts_of_two_splits (s0 a rest b c2 : Str)
    (h : splitFirst '|' s0 = some (a, rest)) (h2 : splitFirst '|' rest = some (b, c2)) :
    nativeParts s0 = (pyStripWs a, pyStripWs c2) := by
  have hmem : '|' ∈ s0 := by
    obtain ⟨hs, _⟩ := splitFirst_spec '|' s0 a rest h
    rw [hs]
    simp
  have hc : s0.contains '|' = true := by simpa using hmem
  unfold nativeParts
  rw [if_pos hc, h]
  show (match splitFirst '|' rest with
    | some (_, c2) => (pyStripWs a, pyStripWs c2)
    | none => (pyStripWs a, ([] : Str))) = (pyStripWs a, pyStripWs c2)
  rw [h2]

/-- Unfolding the parse when exactly one pipe occurs. -/
theorem nativeParts_of_one_split (s0 a rest : Str)
    (h : splitFirst '|' s0 = some (a, rest)) (h2 : splitFirst '|' rest = none) :
    nativeParts s0 = (pyStripWs a, []) := by
  have hmem : '|' ∈ s0 := by
    obtain ⟨hs, _⟩ := splitFirst_spec '|' s0 a rest h
    rw [hs]
    simp
  have hc : s0.contains '|' = true := by simpa using hmem
  unfold nativeParts
  rw [if_pos hc, h]
  show (match splitFirst '|' rest with
    | some (_, c2) => (pyStripWs a, pyStripWs c2)
    | none => (pyStripWs a, ([] : Str))) = (pyStripWs a, [])
  rw [h2]

/-- Unfolding the parse when no pipe occurs. -/
theorem nativeParts_of_no_pipe (s0 : Str) (h : '|' ∉ s0) :
    nativeParts s0 = (pyStripWs s0, []) := by
  have hc : ¬ s0.contains '|' = true := by
    intro hc
    exact h (by simpa using hc)
  unfold nativeParts
  rw [if_neg hc]

/-- The sentence portion of the parse is strip-fixed. -/
theorem nativeParts_fst_fixed (s0 : Str) :
    pyStripWs (nativeParts s0).1 = (nativeParts s0).1 := by
  match h : splitFirst '|' s0 with
  | some (a, rest) =>
    match h2 : splitFirst '|' rest with
    | some (b, c2) =>
      rw [nativeParts_of_two_splits s0 a rest b c2 h h2]
      exact pyStripWs_idem a
    | none =>
      rw [nativeParts_of_one_split s0 a rest h h2]
      exact pyStripWs_idem a
  | none =>
    have hnp : '|' ∉ s0 := by
      intro hm
      have := splitFirst_isSome_of_mem '|' s0 hm
      rw [h] at this
      exact absurd this (by simp)
    rw [nativeParts_of_no_pipe s0 hnp]
    exact pyStripWs_idem s0

/-- The explanation portion of the parse is strip-fixed. -/
theorem nativeParts_snd_fixed (s0 : Str) :
    pyStripWs (nativeParts s0).2 = (nativeParts s0).2 := by
  match h : splitFirst '|' s0 with
  | some (a, rest) =>
    match h2 : splitFirst '|' rest with
    | some (b, c2) =>
      rw [nativeParts_of_two_splits s0 a rest b c2 h h2]
      exact pyStripWs_idem c2
    | none =>
      rw [nativeParts_of_one_split s0 a rest h h2]
      rfl
  | none =>
    have hnp : '|' ∉ s0 := by
      intro hm
      have := splitFirst_isSome_of_mem '|' s0 hm
      rw [h] at this
      exact absurd this (by simp)
    rw [nativeParts_of_no_pipe s0 hnp]
    rfl

/-- The sentence portion of the parse contains no pipe. -/
theorem nativeParts_fst_no_pipe (s0 : Str) : '|' ∉ (nativeParts s0).1 := by
  match h : splitFirst '|' s0 with
  | some (a, rest) =>
    have ha := (splitFirst_spec '|' s0 a rest h).2
    match h2 : splitFirst '|' rest with
    | some (b, c2) =>
      rw [nativeParts_of_two_splits s0 a rest b c2 h h2]
      exact fun hm => ha (mem_of_mem_pyStripWs a '|' hm)
    | none =>
      rw [nativeParts_of_one_split s0 a rest h h2]
      exact fun hm => ha (mem_of_mem_pyStripWs a '|' hm)
  | none =>
    have hnp : '|' ∉ s0 := by
      intro hm
      have := splitFirst_isSome_of_mem '|' s0 hm
      rw [h] at this
      exact absurd this (by simp)
    rw [nativeParts_of_no_pipe s0 hnp]
    exact fun hm => hnp (mem_of_mem_pyStripWs s0 '|' hm)

/-! ### C2: stability of the native-expression pass -/

/-- The sanitization pass keeps an empty native expression. -/
theorem natFix_empty (c : Collab) (i : Bool) (lang T s0 : Str) (h : s0 = []) :
    natFix c i lang T (some s0) = some s0 := by
  simp only [natFix]
  rw [if_pos h]

/-- The sanitization pass nulls a normalized duplicate. -/
theorem natFix_dup (c : Collab) (i : Bool) (lang T s0 : Str) (h0 : s0 ≠ [])
    (heq : natNorm (nativeParts s0).1 = natNorm T) :
    natFix c i lang T (some s0) = none := by
  simp only [natFix]
  rw [if_neg h0, if_pos heq]

/-- The sanitization pass keeps the field when the sentence portion is
empty (and not a duplicate). -/
theorem natFix_nosent (c : Collab) (i : Bool) (lang T s0 : Str) (h0 : s0 ≠ [])
    (heq : ¬ natNorm (nativeParts s0).1 = natNorm T)
    (hns : (nativeParts s0).1 = []) :
    natFix c i lang T (some s0) = some s0 := by
  simp only [natFix]
  rw [if_neg h0, if_neg heq, if_neg (by simpa using hns)]

/-- The sanitization pass reassembles the field in the main branch. -/
theorem natFix_main (c : Collab) (i : Bool) (lang T s0 : Str) (h0 : s0 ≠ [])
    (heq : ¬ natNorm (nativeParts s0).1 = natNorm T)
    (hns : (nativeParts s0).1 ≠ []) :
    natFix c i lang T (some s0) =
      some (pyRstripChars [' ', '|']
        ((nativeParts s0).1 ++ lit " | " ++
          (deterministicPronunciation c (nativeParts s0).1 lang).getD [] ++ lit " | " ++
          natBlank i (nativeParts s0).2)) := by
  simp only [natFix]
  rw [if_neg h0, if_neg heq, if_pos hns]

/-- The blanking guard yields the empty string or the unchanged input. -/
theorem natBlank_cases (i : Bool) (ne : Str) :
    natBlank i ne = [] ∨ natBlank i ne = ne := by
  unfold natBlank
  split_ifs <;> simp

/-- The blanking guard is idempotent. -/
theorem natBlank_idem (i : Bool) (ne : Str) :
    natBlank i (natBlank i ne) = natBlank i ne := by
  rcases natBlank_cases i ne with h | h <;> rw [h]
  · rfl
  · exact h

/-- Blanking preserves strip-fixedness. -/
theorem natBlank_fix (i : Bool) (ne : Str) (h : pyStripWs ne = ne) :
    pyStripWs (natBlank i ne) = natBlank i ne := by
  rcases natBlank_cases i ne with h2 | h2 <;> rw [h2]
  · rfl
  · exact h

/-- Blanking preserves the no-trailing-pipe property. -/
theorem natBlank_last (i : Bool) (ne : Str) (h : ne.getLast? ≠ some '|') :
    (natBlank i ne).getLast? ≠ some '|' := by
  rcases natBlank_cases i ne with h2 | h2 <;> rw [h2]
  · simp
  · exact h

/-- A right-strip-fixed non-empty string ends in a character failing the
predicate. -/
theorem rstripP_fixed_last (p : Char → Bool) (s : Str) (h : rstripP p s = s)
    (c : Char) (hc : s.getLast? = some c) : p c = false := by
  have hrev : s.reverse.head? = some c := by rw [List.head?_reverse]; exact hc
  match hr : s.reverse with
  | [] => rw [hr] at hrev; exact Option.noConfusion hrev
  | d :: t =>
    have hd : d = c := by rw [hr] at hrev; cases hrev; rfl
    subst hd
    have hdw : s.reverse.dropWhile p = s.reverse := by
      have := congrArg List.reverse h
      rw [rstripP, List.reverse_reverse] at this
      exact this
    rw [hr] at hdw
    by_cases hp : p d = true
    · rw [List.dropWhile_cons_of_pos hp] at hdw
      have := congrArg List.length hdw
      have hle : (List.dropWhile p t).length ≤ t.length :=
        (List.dropWhile_suffix p).sublist.length_le
      simp at this
      omega
    · simpa using hp

/-- The last element of an append with non-empty right part. -/
theorem getLast?_append_right (l1 l2 : Str) (h : l2 ≠ []) :
    (l1 ++ l2).getLast? = l2.getLast? := by
  induction l1 with
  | nil => rw [List.nil_append]
  | cons a t ih =>
    rw [List.cons_append, List.getLast?_cons, ih]
    match h2 : l2 with
    | [] => exact absurd rfl h
    | b :: u =>
      match h3 : t ++ b :: u with
      | [] => exact absurd h3 (by simp)
      | d :: v => simp [List.getLast?_cons]

/-- The rstrip character class of the reassembly: a non-space non-pipe
character fails it. -/
theorem pipeSpFalse (c : Char) (hsp : isPySpace c = false) (hp : c ≠ '|') :
    ([' ', '|'] : List Char).contains c = false := by
  have hc : c ≠ ' ' := by
    intro h
    rw [h] at hsp
    simp [isPySpace] at hsp
  simp [List.contains, hc, hp]

/-- Lists ending (after a possible prefix) in a non-empty strip-fixed
block with no trailing pipe are fixed by the reassembly rstrip. -/
theorem rstrip_assembled_noop (x e2 : Str) (he_fix : pyStripWs e2 = e2)
    (he_ne : e2 ≠ []) (he_last : e2.getLast? ≠ some '|') :
    pyRstripChars [' ', '|'] (x ++ e2) = x ++ e2 := by
  obtain ⟨c, hc⟩ : ∃ c, e2.getLast? = some c :=
    ⟨e2.getLast he_ne, List.getLast?_eq_getLast_of_ne_nil he_ne⟩
  have hsp : isPySpace c = false :=
    rstripP_fixed_last isPySpace e2 (rstrip_of_stripFixed e2 he_fix) c hc
  have hp : c ≠ '|' := by
    intro h
    rw [h] at hc
    exact he_last hc
  apply rstripP_noop
  intro d hd
  rw [getLast?_append_right x e2 he_ne, hc] at hd
  cases hd
  exact pipeSpFalse c hsp hp

/-- Parse of the reassembled field, explanation present: the rstrip is a
no-op and the two pipes split the string back into its three parts. -/
theorem nativeParts_assembled (ns np e2 : Str)
    (hns_fix : pyStripWs ns = ns) (hns_ne : ns ≠ []) (hns_np : '|' ∉ ns)
    (hnp : '|' ∉ np) (he_fix : pyStripWs e2 = e2)
    (he_last : e2.getLast? ≠ some '|') :
    nativeParts (pyRstripChars [' ', '|']
        (ns ++ lit " | " ++ np ++ lit " | " ++ e2)) = (ns, e2) ∧
      pyRstripChars [' ', '|'] (ns ++ lit " | " ++ np ++ lit " | " ++ e2) ≠ [] := by
  by_cases he : e2 = []
  · subst he
    have hall : ∀ a ∈ lit " | ", ([' ', '|'] : List Char).contains a = true := by decide
    have hlitr : rstripP (fun c => ([' ', '|'] : List Char).contains c) (lit " | ") = [] := by
      decide
    have hz : pyRstripChars [' ', '|'] (ns ++ lit " | " ++ np ++ lit " | " ++ ([] : Str)) =
        (if rstripP (fun c => ([' ', '|'] : List Char).contains c) np = []
         then rstripP (fun c => ([' ', '|'] : List Char).contains c) ns
         else (ns ++ lit " | ") ++ rstripP (fun c => ([' ', '|'] : List Char).contains c) np) := by
      unfold pyRstripChars
      rw [List.append_nil,
          rstripP_append_all (fun c => ([' ', '|'] : List Char).contains c)
            ((ns ++ lit " | ") ++ np) (lit " | ") hall,
          rstripP_append_split (fun c => ([' ', '|'] : List Char).contains c)
            (ns ++ lit " | ") np]
      by_cases hnp0 : rstripP (fun c => ([' ', '|'] : List Char).contains c) np = []
      · rw [if_pos hnp0, if_pos hnp0,
            rstripP_append_all (fun c => ([' ', '|'] : List Char).contains c) ns (lit " | ") hall]
      · rw [if_neg hnp0, if_neg hnp0]
    by_cases hnp0 : rstripP (fun c => ([' ', '|'] : List Char).contains c) np = []
    · rw [hz, if_pos hnp0]
      obtain ⟨c, hc⟩ : ∃ c, ns.getLast? = some c :=
        ⟨ns.getLast hns_ne, List.getLast?_eq_getLast_of_ne_nil hns_ne⟩
      have hmem : c ∈ ns := by
        rcases List.mem_getLast?_eq_getLast (by rw [hc]; rfl) with ⟨h1, h2⟩
        rw [h2]
        exact List.getLast_mem h1
      have hsp : isPySpace c = false :=
        rstripP_fixed_last isPySpace ns (rstrip_of_stripFixed ns hns_fix) c hc
      have hpc : c ≠ '|' := fun h => hns_np (h ▸ hmem)
      have hfix : rstripP (fun c => ([' ', '|'] : List Char).contains c) ns = ns := by
        apply rstripP_noop
        intro d hd
        rw [hc] at hd
        cases hd
        exact pipeSpFalse c hsp hpc
      rw [hfix]
      refine ⟨?_, hns_ne⟩
      rw [nativeParts_of_no_pipe ns hns_np, hns_fix]
    · rw [hz, if_neg hnp0]
      refine ⟨?_, by simp [hns_ne]⟩
      have hre : (ns ++ lit " | ") ++ rstripP (fun c => ([' ', '|'] : List Char).contains c) np =
          (ns ++ [' ']) ++ '|' :: (' ' ::
            rstripP (fun c => ([' ', '|'] : List Char).contains c) np) := by
        simp [lit]
      have h1 : splitFirst '|' ((ns ++ [' ']) ++ '|' :: (' ' ::
          rstripP (fun c => ([' ', '|'] : List Char).contains c) np)) =
          some (ns ++ [' '], ' ' ::
            rstripP (fun c => ([' ', '|'] : List Char).contains c) np) :=
        splitFirst_append '|' (ns ++ [' ']) _ (by
          intro h
          rcases List.mem_append.mp h with h2 | h2
          · exact hns_np h2
          · simp at h2)
      have h2 : splitFirst '|' (' ' ::
          rstripP (fun c => ([' ', '|'] : List Char).contains c) np) = none := by
        apply splitFirst_none
        intro h
        rcases List.mem_cons.mp h with h2 | h2
        · exact absurd h2 (by decide)
        · exact hnp (mem_of_mem_rstripP _ np '|' h2)
      rw [hre, nativeParts_of_one_split _ _ _ h1 h2, stripFixed_append_space ns hns_fix]
  · have hno := rstrip_assembled_noop (ns ++ lit " | " ++ np ++ lit " | ") e2 he_fix he he_last
    have hass : ns ++ lit " | " ++ np ++ lit " | " ++ e2 =
        (ns ++ lit " | " ++ np ++ lit " | ") ++ e2 := by simp
    rw [hass, hno]
    refine ⟨?_, by simp [lit]⟩
    have hre : (ns ++ lit " | " ++ np ++ lit " | ") ++ e2 =
        (ns ++ [' ']) ++ '|' :: (((' ' :: np) ++ [' ']) ++ '|' :: (' ' :: e2)) := by
      simp [lit]
    have h1 : splitFirst '|' ((ns ++ [' ']) ++ '|' ::
        (((' ' :: np) ++ [' ']) ++ '|' :: (' ' :: e2))) =
        some (ns ++ [' '], ((' ' :: np) ++ [' ']) ++ '|' :: (' ' :: e2)) :=
      splitFirst_append '|' (ns ++ [' ']) _ (by
        intro h
        rcases List.mem_append.mp h with h2 | h2
        · exact hns_np h2
        · simp at h2)
    have h2 : splitFirst '|' (((' ' :: np) ++ [' ']) ++ '|' :: (' ' :: e2)) =
        some ((' ' :: np) ++ [' '], ' ' :: e2) :=
      splitFirst_append '|' ((' ' :: np) ++ [' ']) _ (by
        intro h
        rcases List.mem_append.mp h with h2 | h2
        · rcases List.mem_cons.mp h2 with h3 | h3
          · exact absurd h3 (by decide)
          · exact hnp h3
        · simp at h2)
    rw [hre, nativeParts_of_two_splits _ _ _ _ _ h1 h2, stripFixed_append_space ns hns_fix,
        stripFixed_cons_space e2 he_fix]

/-- Stability condition on the incoming `native_expression`: its parsed
explanation portion does not end in a pipe (the reassembly's `rstrip(" |")`
would otherwise truncate it on the second run). -/
def nativeExplOk : Option Str → Prop
  | none => True
  | some s0 => ((nativeParts s0).2).getLast? ≠ some '|'

/-- The native-expression sanitization of routes.py is idempotent for the
languages whose dispatcher is pipe-free, provided the incoming explanation
does not end in a pipe. -/
theorem natFix_idem (c : Collab) (i : Bool) (lang T : Str)
    (hlang : lang = lit "he" ∨ lang = lit "el" ∨ lang = lit "it" ∨ lang = lit "es" ∨
      lang = lit "en")
    (x : Option Str) (hx : nativeExplOk x) :
    natFix c i lang T (natFix c i lang T x) = natFix c i lang T x := by
  cases x with
  | none => rfl
  | some s0 =>
    have hx2 : ((nativeParts s0).2).getLast? ≠ some '|' := hx
    by_cases h0 : s0 = []
    · rw [natFix_empty c i lang T s0 h0, natFix_empty c i lang T s0 h0]
    · by_cases heq : natNorm (nativeParts s0).1 = natNorm T
      · rw [natFix_dup c i lang T s0 h0 heq]
        rfl
      · by_cases hns : (nativeParts s0).1 = []
        · rw [natFix_nosent c i lang T s0 h0 heq hns,
              natFix_nosent c i lang T s0 h0 heq hns]
        · rw [natFix_main c i lang T s0 h0 heq hns]
          have hnp := llmPron_no_pipe c lang (nativeParts s0).1 hlang
            (nativeParts_fst_no_pipe s0)
          have hassem := nativeParts_assembled (nativeParts s0).1
            ((deterministicPronunciation c (nativeParts s0).1 lang).getD [])
            (natBlank i (nativeParts s0).2)
            (nativeParts_fst_fixed s0) hns (nativeParts_fst_no_pipe s0) hnp
            (natBlank_fix i (nativeParts s0).2 (nativeParts_snd_fixed s0))
            (natBlank_last i (nativeParts s0).2 hx2)
          rw [natFix_main c i lang T _ hassem.2
              (by rw [hassem.1]; exact heq) (by rw [hassem.1]; exact hns),
              hassem.1]
          rw [show ((nativeParts s0).1, natBlank i (nativeParts s0).2).1 =
              (nativeParts s0).1 from rfl,
            show ((nativeParts s0).1, natBlank i (nativeParts s0).2).2 =
              natBlank i (nativeParts s0).2 from rfl,
            natBlank_idem]

/-! ### C2: pass-level lemmas -/

/-- Field-wise equality of payloads. -/
theorem payload_eq_of_fields (a b : Payload)
    (h1 : a.translation = b.translation) (h2 : a.pronunciation = b.pronunciation)
    (h3 : a.breakdown = b.breakdown) (h4 : a.grammar_notes = b.grammar_notes)
    (h5 : a.native_expression = b.native_expression) (h6 : a.warning = b.warning) :
    a = b := by
  cases a
  cases b
  cases h1
  cases h2
  cases h3
  cases h4
  cases h5
  cases h6
  rfl

/-- Field-wise equality of breakdown entries. -/
theorem wordEntry_eq_of_fields (a b : WordEntry)
    (h1 : a.word = b.word) (h2 : a.pronunciation = b.pronunciation)
    (h3 : a.meaning = b.meaning) (h4 : a.difficulty = b.difficulty)
    (h5 : a.note = b.note) : a = b := by
  cases a
  cases b
  cases h1
  cases h2
  cases h3
  cases h4
  cases h5
  rfl

/-- The script-leakage pass is the identity for non-Chinese targets. -/
theorem leakPass_skip (lang : Str) (p : Payload) (h : lang ≠ lit "zh") :
    leakPass lang p = p := by
  unfold leakPass
  rw [if_neg (fun hc => h hc.1)]

/-- The re-segmentation pass is the identity for non-Chinese targets. -/
theorem resegPass_skip (c : Collab) (lang : Str) (p : Payload) (h : lang ≠ lit "zh") :
    routesResegPass c lang p = p := by
  unfold routesResegPass routesResegBreakdown
  rw [if_neg (fun hc => h hc.1)]

/-- The gender-annotation pass is the identity for non-Japanese targets. -/
theorem genderPass_skip (lang : Str) (p : Payload) (h : lang ≠ lit "ja") :
    genderPass lang p = p := by
  unfold genderPass genderNotes
  rw [if_neg (fun hc => h hc.1)]

/-- The echo-warning computation is idempotent in the warning slot. -/
theorem echoWarning_idem (s : Str) (i : Bool) (lang T : Str) (w : Option Str) :
    echoWarning s i lang T (echoWarning s i lang T w) = echoWarning s i lang T w := by
  unfold echoWarning
  split_ifs <;> rfl

/-- The truthy-guarded replacement is idempotent. -/
theorem matchTruthy_idem (v : Option Str) (a : Str) :
    (match truthyStr v with
     | some s => s
     | none =>
       match truthyStr v with
       | some s => s
       | none => a) =
      (match truthyStr v with
       | some s => s
       | none => a) := by
  cases truthyStr v <;> rfl

/-- The per-entry pronunciation override is idempotent. -/
theorem itemPron_idem (d : Str → Option Str) (e : WordEntry) :
    itemPron d (itemPron d e) = itemPron d e := by
  apply wordEntry_eq_of_fields
  · rfl
  · show (match truthyStr (d e.word) with
      | some s => s
      | none =>
        match truthyStr (d e.word) with
        | some s => s
        | none => e.pronunciation) = _
    exact matchTruthy_idem (d e.word) e.pronunciation
  · rfl
  · rfl
  · rfl

/-- The meaning cleanup does not change the entry pronunciation. -/
theorem cleanMeaningEntry_pron (it : WordEntry) :
    (cleanMeaningEntry it).pronunciation = it.pronunciation := by
  unfold cleanMeaningEntry
  split_ifs <;> rfl

/-- The meaning cleanup does not change the entry difficulty. -/
theorem cleanMeaningEntry_difficulty (it : WordEntry) :
    (cleanMeaningEntry it).difficulty = it.difficulty := by
  unfold cleanMeaningEntry
  split_ifs <;> rfl

/-- The meaning cleanup does not change the entry note. -/
theorem cleanMeaningEntry_note (it : WordEntry) :
    (cleanMeaningEntry it).note = it.note := by
  unfold cleanMeaningEntry
  split_ifs <;> rfl

/-- The meaning field after the cleanup. -/
theorem cleanMeaningEntry_meaning (it : WordEntry) :
    (cleanMeaningEntry it).meaning =
      (if it.meaning.any isCJK ∧ mcleanMeaning it.meaning ≠ []
       then mcleanMeaning it.meaning else it.meaning) := by
  unfold cleanMeaningEntry
  split_ifs <;> rfl

/-- Members of the paren-leading cleanup come from its input. -/
theorem mem_of_mem_mcleanParen (s : Str) (c : Char) (h : c ∈ mcleanParen s) : c ∈ s := by
  match s with
  | [] => exact absurd h (by simp [mcleanParen] at h ⊢)
  | a :: t =>
    rw [show mcleanParen (a :: t) =
        (if a = '(' then lstripP isPySpace t else lstripP isPySpace (a :: t)) from rfl] at h
    by_cases ha : a = '('
    · rw [if_pos ha] at h
      exact List.mem_cons_of_mem a (mem_of_mem_lstripP _ t c h)
    · rw [if_neg ha] at h
      exact mem_of_mem_lstripP _ (a :: t) c h

/-- Members of the paren-trailing cleanup come from its input. -/
theorem mem_of_mem_mcleanClose (s : Str) (c : Char) (h : c ∈ mcleanClose s) : c ∈ s := by
  unfold mcleanClose at h
  split_ifs at h
  · exact List.Sublist.subset (List.dropLast_sublist _) (mem_of_mem_rstripP _ _ c h)
  · exact h

/-- The cleaned meaning contains no CJK character. -/
theorem mcleanMeaning_no_cjk (m : Str) (c : Char) (h : c ∈ mcleanMeaning m) :
    isCJK c = false := by
  unfold mcleanMeaning at h
  have h2 : c ∈ m.filter (fun ch => ¬ isCJK ch) :=
    mem_of_mem_pyStripWs _ c
      (mem_of_mem_mcleanParen _ c
        (mem_of_mem_rstripP _ _ c (mem_of_mem_mcleanClose _ c h)))
  have := List.of_mem_filter h2
  simpa using this

/-- The per-entry meaning cleanup is idempotent. -/
theorem cleanMeaningEntry_idem (e : WordEntry) :
    cleanMeaningEntry (cleanMeaningEntry e) = cleanMeaningEntry e := by
  by_cases h : e.meaning.any isCJK ∧ mcleanMeaning e.meaning ≠ []
  · have h1 : (cleanMeaningEntry e).meaning = mcleanMeaning e.meaning := by
      rw [cleanMeaningEntry_meaning, if_pos h]
    have h2 : ¬ ((cleanMeaningEntry e).meaning.any isCJK ∧
        mcleanMeaning (cleanMeaningEntry e).meaning ≠ []) := by
      intro hc
      rw [h1] at hc
      rcases List.any_eq_true.mp hc.1 with ⟨x, hx, hcx⟩
      rw [mcleanMeaning_no_cjk e.meaning x hx] at hcx
      exact Bool.noConfusion hcx
    have hstep : ∀ x : WordEntry,
        ¬ (x.meaning.any isCJK ∧ mcleanMeaning x.meaning ≠ []) → cleanMeaningEntry x = x := by
      intro x hx
      unfold cleanMeaningEntry
      rw [if_neg hx]
    rw [hstep (cleanMeaningEntry e) h2]
  · have h1 : cleanMeaningEntry e = e := by
      unfold cleanMeaningEntry
      rw [if_neg h]
    rw [h1, h1]

/-- The pronunciation override and the meaning cleanup write disjoint
fields and commute. -/
theorem itemPron_cme_comm (d : Str → Option Str) (e : WordEntry) :
    itemPron d (cleanMeaningEntry e) = cleanMeaningEntry (itemPron d e) := by
  apply wordEntry_eq_of_fields
  · show (cleanMeaningEntry e).word = (cleanMeaningEntry (itemPron d e)).word
    rw [cleanMeaningEntry_word, cleanMeaningEntry_word]
    rfl
  · show (match truthyStr (d (cleanMeaningEntry e).word) with
      | some s => s
      | none => (cleanMeaningEntry e).pronunciation) =
      (cleanMeaningEntry (itemPron d e)).pronunciation
    rw [cleanMeaningEntry_word, cleanMeaningEntry_pron, cleanMeaningEntry_pron]
    rfl
  · show (cleanMeaningEntry e).meaning = (cleanMeaningEntry (itemPron d e)).meaning
    rw [cleanMeaningEntry_meaning, cleanMeaningEntry_meaning]
    rfl
  · show (cleanMeaningEntry e).difficulty = (cleanMeaningEntry (itemPron d e)).difficulty
    rw [cleanMeaningEntry_difficulty, cleanMeaningEntry_difficulty]
    rfl
  · show (cleanMeaningEntry e).note = (cleanMeaningEntry (itemPron d e)).note
    rw [cleanMeaningEntry_note, cleanMeaningEntry_note]
    rfl

/-- Mapping a function that fixes every element is the identity. -/
theorem map_fix {α : Type} (f : α → α) (l : List α) (h : ∀ a ∈ l, f a = a) :
    l.map f = l := by
  induction l with
  | nil => rfl
  | cons a t ih =>
    rw [List.map_cons, h a (by simp), ih (fun b hb => h b (by simp [hb]))]

/-- Whitespace collapsing only keeps input characters or inserts spaces. -/
theorem mem_collapseWsAux (s : Str) : ∀ (b : Bool) (c : Char),
    c ∈ collapseWsAux b s → c = ' ' ∨ c ∈ s := by
  induction s with
  | nil =>
    intro b c h
    exact absurd h (by simp [collapseWsAux] at h ⊢)
  | cons a t ih =>
    intro b c h
    unfold collapseWsAux at h
    by_cases ha : isPySpace a = true
    · rw [if_pos ha] at h
      by_cases hb : b = true
      · rw [if_pos hb] at h
        rcases ih true c h with h2 | h2
        · exact Or.inl h2
        · exact Or.inr (List.mem_cons_of_mem a h2)
      · rw [if_neg hb] at h
        rcases List.mem_cons.mp h with h2 | h2
        · exact Or.inl h2
        · rcases ih true c h2 with h3 | h3
          · exact Or.inl h3
          · exact Or.inr (List.mem_cons_of_mem a h3)
    · rw [if_neg ha] at h
      rcases List.mem_cons.mp h with h2 | h2
      · exact Or.inr (by rw [h2]; simp)
      · rcases ih false c h2 with h3 | h3
        · exact Or.inl h3
        · exact Or.inr (List.mem_cons_of_mem a h3)

/-- The plain-CJK range is contained in the extended range. -/
theorem isCJKextended_of_isCJK (c : Char) (h : isCJK c = true) :
    isCJKextended c = true := by
  unfold isCJK at h
  unfold isCJKextended
  rw [h]
  rfl

/-- The salvaged form of a note contains no CJK character. -/
theorem salvage_no_cjk (note : Str) (c : Char) (h : c ∈ salvage note) :
    isCJK c = false := by
  unfold salvage at h
  have h2 := mem_of_mem_pyStripChars SALVAGE_STRIP _ c h
  rcases mem_collapseWsAux _ false c h2 with h3 | h3
  · rw [h3]
    rfl
  · have h4 := mem_of_mem_pyStripWs _ c h3
    have h5 := List.of_mem_filter h4
    by_cases hc : isCJK c = true
    · exact absurd (isCJKextended_of_isCJK c hc) (by simpa using h5)
    · simpa using hc

/-- A string without CJK characters is not mostly CJK. -/
theorem mostlyCjk_false_of_no_cjk (s : Str) (h : ∀ c ∈ s, isCJK c = false) :
    mostlyCjk s = false := by
  unfold mostlyCjk
  by_cases hs : s = []
  · rw [if_pos hs]
  · rw [if_neg hs]
    have hz : countCJK s = 0 := by
      unfold countCJK
      rw [List.filter_eq_nil_iff.mpr (fun a ha => by simp [h a ha])]
      rfl
    rw [hz]
    simp

/-- Every note surviving the cleanup filter is itself not mostly CJK. -/
theorem cleanNotes_all_clean (l : List Str) (x : Str) (hx : x ∈ cleanNotes l) :
    mostlyCjk x = false := by
  induction l with
  | nil => exact absurd hx (by simp [cleanNotes] at hx ⊢)
  | cons a t ih =>
    unfold cleanNotes at hx ih
    rw [List.foldr_cons] at hx
    by_cases ha : mostlyCjk a = true
    · rw [if_pos ha] at hx
      by_cases hl : (salvage a).length > 15
      · rw [if_pos hl] at hx
        rcases List.mem_cons.mp hx with h2 | h2
        · rw [h2]
          exact mostlyCjk_false_of_no_cjk _ (salvage_no_cjk a)
        · exact ih h2
      · rw [if_neg hl] at hx
        exact ih hx
    · rw [if_neg ha] at hx
      rcases List.mem_cons.mp hx with h2 | h2
      · rw [h2]
        simpa using ha
      · exact ih h2

/-- The cleanup filter keeps a list of non-CJK notes unchanged. -/
theorem cleanNotes_of_all_clean (l : List Str) (h : ∀ x ∈ l, mostlyCjk x = false) :
    cleanNotes l = l := by
  induction l with
  | nil => rfl
  | cons a t ih =>
    unfold cleanNotes at ih ⊢
    rw [List.foldr_cons, if_neg (by simp [h a (by simp)]),
        ih (fun x hx => h x (by simp [hx]))]

/-- The grammar-note enforcement of the explanation language is
idempotent. -/
theorem explNotes_idem (T : Str) (n : List Str) :
    explNotes T (explNotes T n) = explNotes T n := by
  by_cases h : cleanNotes n = [] ∧ n ≠ [] ∧ T ≠ []
  · have h1 : explNotes T n = [FALLBACK_NOTE] := by
      unfold explNotes
      rw [if_pos h]
    rw [h1]
    have h2 : cleanNotes [FALLBACK_NOTE] = [FALLBACK_NOTE] := by decide
    unfold explNotes
    rw [h2, if_neg (fun hc => List.cons_ne_nil _ _ hc.1)]
  · have h1 : explNotes T n = cleanNotes n := by
      unfold explNotes
      rw [if_neg h]
    rw [h1]
    have h2 : cleanNotes (cleanNotes n) = cleanNotes n :=
      cleanNotes_of_all_clean _ (cleanNotes_all_clean n)
    unfold explNotes
    rw [h2, if_neg (fun hc => hc.2.1 hc.1)]

/-- An entry produced by the pronunciation-override map is fixed by it. -/
theorem itemPron_fix_of_mem_map (d : Str → Option Str) (b : List WordEntry)
    (e : WordEntry) (he : e ∈ b.map (itemPron d)) : itemPron d e = e := by
  rcases List.mem_map.mp he with ⟨a, _, ha⟩
  rw [← ha]
  exact itemPron_idem d a

/-- An entry produced by the meaning-cleanup map is fixed by it. -/
theorem cme_fix_of_mem_map (l : List WordEntry) (e : WordEntry)
    (he : e ∈ l.map cleanMeaningEntry) : cleanMeaningEntry e = e := by
  rcases List.mem_map.mp he with ⟨a, _, ha⟩
  rw [← ha]
  exact cleanMeaningEntry_idem a

/-- The pronunciation override also fixes the meaning-cleaned form of a
fixed entry. -/
theorem itemPron_fix_of_cme (d : Str → Option Str) (y : WordEntry)
    (hy : itemPron d y = y) :
    itemPron d (cleanMeaningEntry y) = cleanMeaningEntry y := by
  rw [itemPron_cme_comm, hy]

/-- Members of the filter stage come from the override stage. -/
theorem mem_B2_sub (d : Str → Option Str) (T : Str) (b : List WordEntry) (e : WordEntry)
    (he : e ∈ (if b.map (itemPron d) ≠ [] ∧ T ≠ []
      then (b.map (itemPron d)).filter (routesKeep T) else b.map (itemPron d))) :
    e ∈ b.map (itemPron d) := by
  split_ifs at he
  · exact List.mem_of_mem_filter he
  · exact he

/-- When the filter stage output is non-empty and the translation is
non-empty, every member passes the keep test. -/
theorem keep_B2 (d : Str → Option Str) (T : Str) (b : List WordEntry)
    (hne : (if b.map (itemPron d) ≠ [] ∧ T ≠ []
      then (b.map (itemPron d)).filter (routesKeep T) else b.map (itemPron d)) ≠ [])
    (hT : T ≠ []) (e : WordEntry)
    (he : e ∈ (if b.map (itemPron d) ≠ [] ∧ T ≠ []
      then (b.map (itemPron d)).filter (routesKeep T) else b.map (itemPron d))) :
    routesKeep T e = true := by
  by_cases hb1 : b.map (itemPron d) ≠ []
  · rw [if_pos ⟨hb1, hT⟩] at he
    exact List.of_mem_filter he
  · rw [if_neg (fun hcc => hb1 hcc.1)] at hne
    exact absurd (by simpa using hb1) hne

/-- The override/filter/meaning-cleanup stage is the identity on a list
satisfying its own output invariants. -/
theorem stage_fixed (d : Str → Option Str) (T : Str) (i : Bool) (x : List WordEntry)
    (hfix : ∀ e ∈ x, itemPron d e = e)
    (hcme : i = false → ∀ e ∈ x, cleanMeaningEntry e = e)
    (hkeep : T ≠ [] → x ≠ [] → ∀ e ∈ x, routesKeep T e = true) :
    (if i
     then (if x.map (itemPron d) ≠ [] ∧ T ≠ []
           then (x.map (itemPron d)).filter (routesKeep T) else x.map (itemPron d))
     else (if x.map (itemPron d) ≠ [] ∧ T ≠ []
           then (x.map (itemPron d)).filter (routesKeep T)
           else x.map (itemPron d)).map cleanMeaningEntry) = x := by
  have hmap : x.map (itemPron d) = x := map_fix _ _ hfix
  rw [hmap]
  have hB2 : (if x ≠ [] ∧ T ≠ [] then x.filter (routesKeep T) else x) = x := by
    by_cases hcc : x ≠ [] ∧ T ≠ []
    · rw [if_pos hcc, List.filter_eq_self.mpr (fun e he => hkeep hcc.2 hcc.1 e he)]
    · rw [if_neg hcc]
  rw [hB2]
  cases i with
  | true => rfl
  | false => exact map_fix _ _ (hcme rfl)

/-- The stage's output satisfies the invariants consumed by
`stage_fixed`. -/
theorem stage_invariant (d : Str → Option Str) (T : Str) (i : Bool) (b : List WordEntry) :
    (∀ e ∈ (if i
        then (if b.map (itemPron d) ≠ [] ∧ T ≠ []
              then (b.map (itemPron d)).filter (routesKeep T) else b.map (itemPron d))
        else (if b.map (itemPron d) ≠ [] ∧ T ≠ []
              then (b.map (itemPron d)).filter (routesKeep T)
              else b.map (itemPron d)).map cleanMeaningEntry),
      itemPron d e = e) ∧
    ((i = false) → ∀ e ∈ (if i
        then (if b.map (itemPron d) ≠ [] ∧ T ≠ []
              then (b.map (itemPron d)).filter (routesKeep T) else b.map (itemPron d))
        else (if b.map (itemPron d) ≠ [] ∧ T ≠ []
              then (b.map (itemPron d)).filter (routesKeep T)
              else b.map (itemPron d)).map cleanMeaningEntry),
      cleanMeaningEntry e = e) ∧
    (T ≠ [] → (if i
        then (if b.map (itemPron d) ≠ [] ∧ T ≠ []
              then (b.map (itemPron d)).filter (routesKeep T) else b.map (itemPron d))
        else (if b.map (itemPron d) ≠ [] ∧ T ≠ []
              then (b.map (itemPron d)).filter (routesKeep T)
              else b.map (itemPron d)).map cleanMeaningEntry) ≠ [] →
      ∀ e ∈ (if i
        then (if b.map (itemPron d) ≠ [] ∧ T ≠ []
              then (b.map (itemPron d)).filter (routesKeep T) else b.map (itemPron d))
        else (if b.map (itemPron d) ≠ [] ∧ T ≠ []
              then (b.map (itemPron d)).filter (routesKeep T)
              else b.map (itemPron d)).map cleanMeaningEntry),
      routesKeep T e = true) := by
  cases i with
  | true =>
    rw [if_pos rfl]
    refine ⟨?_, ?_, ?_⟩
    · intro e he
      exact itemPron_fix_of_mem_map d b e (mem_B2_sub d T b e he)
    · intro hcontra
      exact absurd hcontra (by simp)
    · intro hT hne e he
      exact keep_B2 d T b hne hT e he
  | false =>
    rw [if_neg (by simp)]
    refine ⟨?_, ?_, ?_⟩
    · intro e he
      rcases List.mem_map.mp he with ⟨y, hy, hye⟩
      rw [← hye]
      exact itemPron_fix_of_cme d y (itemPron_fix_of_mem_map d b y (mem_B2_sub d T b y hy))
    · intro _ e he
      exact cme_fix_of_mem_map _ e he
    · intro hT hne e he
      rcases List.mem_map.mp he with ⟨y, hy, hye⟩
      have hB2ne : (if b.map (itemPron d) ≠ [] ∧ T ≠ []
          then (b.map (itemPron d)).filter (routesKeep T) else b.map (itemPron d)) ≠ [] := by
        intro h0
        rw [h0] at hy
        exact List.not_mem_nil y hy
      have hk := keep_B2 d T b hB2ne hT y hy
      rw [← hye, routesKeep_congr T (cleanMeaningEntry y) y (cleanMeaningEntry_word y)]
      exact hk

/-- For non-Chinese non-Japanese targets the pipeline reduces to the
echo, pronunciation, filter, native-expression and explanation passes. -/
theorem routesRepair_reduced (c : Collab) (s : Str) (i : Bool) (lang : Str) (p : Payload)
    (hzh : lang ≠ lit "zh") (hja : lang ≠ lit "ja") :
    routesRepair c s i lang p =
      explLangPass i (routesNativeFix c i lang (routesFilterPass
        (pronPass (fun t => deterministicPronunciation c t lang) (echoPass s i lang p)))) := by
  unfold routesRepair
  rw [leakPass_skip lang _ hzh, resegPass_skip c lang _ hzh, genderPass_skip lang _ hja]

/-- C2 (amended): the routes.py repair pipeline is NOT idempotent for every
payload (see the counterexample: the Japanese gender/register pass prepends
its note again on the second run).  It is idempotent for the Latin, Greek
and Hebrew targets (he, el, it, es, en) whenever the incoming
native expression's parsed explanation does not end in a pipe: running the
pipeline a second time on its own output changes nothing. -/
theorem c2_restricted_idempotence (c : Collab) (s : Str) (i : Bool) (lang : Str) (p : Payload)
    (hlang : lang = lit "he" ∨ lang = lit "el" ∨ lang = lit "it" ∨ lang = lit "es" ∨
      lang = lit "en")
    (hx : nativeExplOk p.native_expression) :
    routesRepair c s i lang (routesRepair c s i lang p) = routesRepair c s i lang p := by
  have hzh : lang ≠ lit "zh" := by
    rcases hlang with h | h | h | h | h <;> subst h <;> decide
  have hja : lang ≠ lit "ja" := by
    rcases hlang with h | h | h | h | h <;> subst h <;> decide
  rw [routesRepair_reduced c s i lang p hzh hja]
  rw [routesRepair_reduced c s i lang _ hzh hja]
  apply payload_eq_of_fields
  · rfl
  · exact matchTruthy_idem (deterministicPronunciation c p.translation lang) p.pronunciation
  · exact stage_fixed (fun t => deterministicPronunciation c t lang) p.translation i _
      (stage_invariant (fun t => deterministicPronunciation c t lang) p.translation i
        p.breakdown).1
      (stage_invariant (fun t => deterministicPronunciation c t lang) p.translation i
        p.breakdown).2.1
      (stage_invariant (fun t => deterministicPronunciation c t lang) p.translation i
        p.breakdown).2.2
  · cases i with
    | true => rfl
    | false => exact explNotes_idem p.translation p.grammar_notes
  · exact natFix_idem c i lang p.translation hlang p.native_expression hx
  · exact echoWarning_idem s i lang p.translation p.warning

/-- Concrete Hebrew payload used to witness the amended C2 theorem. -/
def c2HePayload : Payload :=
  { translation := lit "שלום",
    pronunciation := [],
    breakdown := [],
    grammar_notes := [],
    native_expression := some (lit "שלום עולם | shalom olam | a greeting"),
    warning := none }

/-- Witness for C2's amended theorem at a concrete Hebrew payload. -/
theorem c2_witness :
    ((lit "he" = lit "he" ∨ lit "he" = lit "el" ∨ lit "he" = lit "it" ∨
        lit "he" = lit "es" ∨ lit "he" = lit "en") ∧
      nativeExplOk c2HePayload.native_expression) ∧
    routesRepair trivialCollab (lit "hi") false (lit "he")
        (routesRepair trivialCollab (lit "hi") false (lit "he") c2HePayload) =
      routesRepair trivialCollab (lit "hi") false (lit "he") c2HePayload :=
  ⟨⟨Or.inl rfl,
    by
      show ((nativeParts (lit "שלום עולם | shalom olam | a greeting")).2).getLast? ≠ some '|'
      decide⟩,
    c2_restricted_idempotence trivialCollab (lit "hi") false (lit "he") c2HePayload
      (Or.inl rfl)
      (by
        show ((nativeParts (lit "שלום עולם | shalom olam | a greeting")).2).getLast? ≠ some '|'
        decide)⟩

/-- Concrete Japanese payload on which the pipeline is not idempotent. -/
def c2JaPayload : Payload :=
  { translation := lit "私です",
    pronunciation := [],
    breakdown := [],
    grammar_notes := [],
    native_expression := none,
    warning := none }

/-- Counterexample for C2 as stated: on a Japanese payload whose
translation contains the marker 私, the gender/register pass prepends its
note again on the second run, so the pipeline's output is not a fixed
point. -/
theorem c2_counterexample :
    routesRepair trivialCollab (lit "I am") false (lit "ja")
        (routesRepair trivialCollab (lit "I am") false (lit "ja") c2JaPayload) ≠
      routesRepair trivialCollab (lit "I am") false (lit "ja") c2JaPayload := by
  decide
